import Mathlib

/-!
Verification of the session-status engine of the claude-code-ui repository.

The daemon's pure state machine (`status-machine.ts`), the published-status
mapping, the registry side-effect layer (`transitionSession`), the hook
ingest endpoint (`hook-handler.ts`), the transition-log HTTP server
(`log-server.ts`) and the text cleaner (`strip-tags.ts`) are embedded as
executable Lean definitions, and the specification's claims about them are
proved or refuted below.
-/

namespace CCUI

-- ===========================================================================
-- Definitions
-- ===========================================================================

-- ---------------------------------------------------------------------------
-- 1. Pure state machine (status-machine.ts)
-- ---------------------------------------------------------------------------

/-- Machine states of the unified session state machine. -/
inductive MachineState where
  | working
  | tasking
  | needs_approval
  | waiting
  | review
  | idle
  deriving DecidableEq, Repr

/-- Machine events consumed by the transition function.  The source defines
eight events; `TOOL_ACTIVITY` is driven from JSONL replay only. -/
inductive MEvent where
  | WORKING
  | STOP
  | ENDED
  | PERMISSION_REQUEST
  | WORKTREE_DELETED
  | TASK_STARTED
  | TASKS_DONE
  | TOOL_ACTIVITY
  deriving DecidableEq, Repr

/-- The pure transition function, embedded from `transition` in
`status-machine.ts` (switch over state, inner switch over event type,
default keeps the current state). -/
def transition (state : MachineState) (event : MEvent) (isWorktree : Bool) :
    MachineState :=
  match state with
  | .working =>
    match event with
    | .STOP => if isWorktree then .review else .waiting
    | .ENDED => if isWorktree then .review else .idle
    | .PERMISSION_REQUEST => .needs_approval
    | .TASK_STARTED => .tasking
    | _ => state
  | .tasking =>
    match event with
    | .STOP => if isWorktree then .review else .waiting
    | .ENDED => if isWorktree then .review else .idle
    | .PERMISSION_REQUEST => .needs_approval
    | .TASKS_DONE => .working
    | _ => state
  | .needs_approval =>
    match event with
    | .WORKING => .working
    | .STOP => if isWorktree then .review else .waiting
    | .ENDED => if isWorktree then .review else .idle
    | .PERMISSION_REQUEST => .needs_approval
    | _ => state
  | .waiting =>
    match event with
    | .WORKING => .working
    | .TOOL_ACTIVITY => .working
    | .ENDED => if isWorktree then .review else .idle
    | .PERMISSION_REQUEST => .needs_approval
    | _ => state
  | .review =>
    match event with
    | .WORKING => .working
    | .TOOL_ACTIVITY => .working
    | .WORKTREE_DELETED => .idle
    | _ => state
  | .idle =>
    match event with
    | .WORKING => .working
    | .TOOL_ACTIVITY => .working
    | _ => state

/-- Published status values (the machine state minus the internal
`needs_approval`). -/
inductive PubStatus where
  | working
  | tasking
  | waiting
  | review
  | idle
  deriving DecidableEq, Repr

/-- A published status record: status plus the pending-tool flag. -/
structure Published where
  status : PubStatus
  hasPendingToolUse : Bool
  deriving DecidableEq, Repr

/-- Embedded from `machineStateToPublishedStatus` in `status-machine.ts`. -/
def machineStateToPublishedStatus : MachineState → Published
  | .working => ⟨.working, false⟩
  | .tasking => ⟨.tasking, false⟩
  | .needs_approval => ⟨.waiting, true⟩
  | .waiting => ⟨.waiting, false⟩
  | .review => ⟨.review, false⟩
  | .idle => ⟨.idle, false⟩

/-- The transition table as written in the specification (section 4.1 of the
spec and the table quoted by claim C1).  This definition follows the spec's
words; it is compared against the source-embedded `transition` above.
On `TOOL_ACTIVITY` (absent from the spec's event list) it stays put. -/
def specTransition (s : MachineState) (e : MEvent) (w : Bool) : MachineState :=
  match s, e with
  | .working, .STOP => if w then .review else .waiting
  | .working, .ENDED => if w then .review else .idle
  | .working, .PERMISSION_REQUEST => .needs_approval
  | .working, .TASK_STARTED => .tasking
  | .tasking, .STOP => if w then .review else .waiting
  | .tasking, .ENDED => if w then .review else .idle
  | .tasking, .PERMISSION_REQUEST => .needs_approval
  | .tasking, .TASKS_DONE => .working
  | .needs_approval, .WORKING => .working
  | .needs_approval, .STOP => if w then .review else .waiting
  | .needs_approval, .ENDED => if w then .review else .idle
  | .needs_approval, .PERMISSION_REQUEST => .needs_approval
  | .waiting, .WORKING => .working
  | .waiting, .ENDED => if w then .review else .idle
  | .waiting, .PERMISSION_REQUEST => .needs_approval
  | .review, .WORKING => .working
  | .review, .WORKTREE_DELETED => .idle
  | .idle, .WORKING => .working
  | s, _ => s

/-- Name-preserving map from the five non-internal machine states to
published statuses (`needs_approval` has no published counterpart and is
mapped to `waiting`, the value the code publishes for it). -/
def statusNameOf : MachineState → PubStatus
  | .working => .working
  | .tasking => .tasking
  | .needs_approval => .waiting
  | .waiting => .waiting
  | .review => .review
  | .idle => .idle

-- ---------------------------------------------------------------------------
-- 2. Session records and the registry side-effect layer (watcher,
--    `transitionSession`)
-- ---------------------------------------------------------------------------

/-- An entry of the per-session `activeTasks` ledger. -/
structure ActiveTask where
  toolUseId : String
  agentType : String
  description : String
  deriving DecidableEq, Repr

/-- An entry of the per-session `activeTools` ledger. -/
structure ActiveTool where
  toolUseId : String
  toolName : String
  deriving DecidableEq, Repr

/-- Pending-permission data (tool name plus the resolved tool-use id; the
id is `none` when no `PreToolUse` allowed resolving one). -/
structure PendingPermission where
  tool_name : String
  tool_use_id : Option String
  deriving DecidableEq, Repr

/-- The per-session permission-debounce timer: an absolute deadline (ms)
and the permission it will install when it fires. -/
structure PermTimer where
  deadline : Nat
  permission : PendingPermission
  deriving DecidableEq, Repr

/-- The mutable per-session record owned by the registry (the fields of
`SessionState` that the claims depend on). -/
structure Session where
  machineState : MachineState
  isWorktree : Bool
  pendingPermission : Option PendingPermission
  activeTasks : List ActiveTask
  activeTools : List ActiveTool
  compacting : Bool
  lastActivityAt : Nat
  worktreeReachable : Bool
  deriving DecidableEq, Repr

/-- One line of the per-session transition audit log
(`prev -> next event:E source:S`). -/
structure AuditLine where
  prev : MachineState
  next : MachineState
  event : MEvent
  source : String
  deriving DecidableEq, Repr

/-- The outcome of one `transitionSession` call: the updated session and
permission timer, the returned boolean, the audit lines appended, the
snapshots emitted, and the best-effort signal-file cleanups requested. -/
structure TransitionResult where
  session : Session
  timer : Option PermTimer
  changed : Bool
  audit : List AuditLine
  emits : List Published
  cleanups : List String
  deriving DecidableEq, Repr

/-- One commit of `SessionWatcher.transitionSession`, without the
auto-escalation step: compute the next state; if unchanged return false
with no effects; otherwise run the on-exit side effects (cancel the
permission debounce when leaving working/tasking/needs_approval, clear
`pendingPermission` when leaving needs_approval), the on-enter cleanups,
commit the state, append an audit line and emit an update. -/
def transitionSessionStep (s : Session) (timer : Option PermTimer)
    (e : MEvent) (source : String) : TransitionResult :=
  let prev := s.machineState
  let next := transition prev e s.isWorktree
  if next = prev then
    ⟨s, timer, false, [], [], []⟩
  else
    let timer1 :=
      if prev = .working ∨ prev = .tasking ∨ prev = .needs_approval then
        none
      else timer
    let exitPerm := prev = .needs_approval ∧ next ≠ .needs_approval
    let s1 := if exitPerm then { s with pendingPermission := none } else s
    let cl1 : List String := if exitPerm then ["permission"] else []
    let cl2 : List String :=
      if (next = .working ∨ next = .tasking) ∧
          (prev = .review ∨ prev = .waiting ∨ prev = .idle) then
        ["stop", "ended"]
      else []
    let s2 := { s1 with machineState := next }
    let pub := machineStateToPublishedStatus next
    ⟨s2, timer1, true, [⟨prev, next, e, source⟩], [pub], cl1 ++ cl2⟩

/-- Embedded from `SessionWatcher.transitionSession`: one commit, then the
auto-escalation — if the call committed a change landing on `working`
while `activeTasks` is non-empty, recursively fire `TASK_STARTED` (source
`hook`, signal auto-escalate).  In the source this is a recursive call;
its depth is at most one because the inner call starts from `working` and
`TASK_STARTED` lands on `tasking`, never back on `working`, so the one
inner commit below is exactly the recursion's behaviour. -/
def transitionSession (s : Session) (timer : Option PermTimer) (e : MEvent)
    (source : String) : TransitionResult :=
  let r := transitionSessionStep s timer e source
  if r.changed ∧ r.session.machineState = .working ∧
      r.session.activeTasks ≠ [] then
    let r2 := transitionSessionStep r.session r.timer .TASK_STARTED ("hook")
    ⟨r2.session, r2.timer, true, r.audit ++ r2.audit, r.emits ++ r2.emits,
      r.cleanups ++ r2.cleanups⟩
  else r

/-- A concrete session used to probe the auto-escalation rule: `working`
with one active task. -/
def c5Session : Session :=
  { machineState := .working
  , isWorktree := false
  , pendingPermission := none
  , activeTasks := [⟨"toolu_task_01", "Bash", "Run tests"⟩]
  , activeTools := []
  , compacting := false
  , lastActivityAt := 0
  , worktreeReachable := true }

/-- A concrete session used to witness the auto-escalation rule: `tasking`
with one active task. -/
def c5TaskingSession : Session :=
  { c5Session with machineState := .tasking }

/-- A concrete session used to witness idempotence of repeated `Stop`
hooks: already `waiting`. -/
def c8WaitingSession : Session :=
  { machineState := .waiting
  , isWorktree := false
  , pendingPermission := none
  , activeTasks := []
  , activeTools := []
  , compacting := false
  , lastActivityAt := 0
  , worktreeReachable := true }

-- ---------------------------------------------------------------------------
-- 3. Hook ingest dispatcher and timers (spec-modelled)
--
-- The watcher revision exercised by the repository's tests
-- (`watcher.handleHook`, with the `activeTools` ledger, the resolved
-- tool-use id on the permission debounce, and the 60 s stale threshold) is
-- not among the provided daemon sources — only its tests
-- (`tracking.test.ts`, the integration test) and its callers
-- (`hook-handler.ts`, the log server) are.  The definitions below model
-- that layer from the spec (sections 4.2, 4.3, 4.5) and reuse the
-- source-embedded `transitionSession` above for every machine transition.
-- ---------------------------------------------------------------------------

/-- The world of one session: the session record, its permission-debounce
timer, the clock, the configured debounce delay, the worktree flag used at
session creation, the published snapshots so far, and the machine state
observed after each processed input. -/
structure World where
  session : Option Session
  timer : Option PermTimer
  now : Nat
  permissionDelayMs : Nat
  wt : Bool
  emits : List Published
  trace : List (Option MachineState)
  deriving DecidableEq, Repr

/-- The published snapshot of a session. -/
def snapshotOf (s : Session) : Published :=
  machineStateToPublishedStatus s.machineState

/-- Fold a `transitionSession` result into the world. -/
def applyResult (w : World) (r : TransitionResult) : World :=
  { w with session := some r.session, timer := r.timer,
           emits := w.emits ++ r.emits }

/-- Fire a machine event for the world's session through
`transitionSession` (no-op when the session does not exist). -/
def fireTransition (w : World) (e : MEvent) (src : String) : World :=
  match w.session with
  | none => w
  | some s => applyResult w (transitionSession s w.timer e src)

/-- Emit an update snapshot for the current session. -/
def emitUpdate (w : World) : World :=
  match w.session with
  | none => w
  | some s => { w with emits := w.emits ++ [snapshotOf s] }

/-- Modelled from the spec: a session created by its first
`UserPromptSubmit` hook starts in `working` (section 4.2). -/
def newSession (wt : Bool) : Session :=
  { machineState := .working
  , isWorktree := wt
  , pendingPermission := none
  , activeTasks := []
  , activeTools := []
  , compacting := false
  , lastActivityAt := 0
  , worktreeReachable := true }

/-- Hook payloads (plus clock advancement) driving the dispatcher. -/
inductive HookInput where
  | UserPromptSubmit
  | PreToolUse (toolName toolUseId subagentType description : String)
  | PermissionRequest (toolName : String) (toolUseId : Option String)
  | PostToolUse (toolName toolUseId : String)
  | PostToolUseFailure (toolName toolUseId : String)
  | Stop
  | SessionEnd (reason : Option String)
  | PreCompact
  | Advance (ms : Nat)
  deriving DecidableEq, Repr

/-- Modelled from the spec: resolve a permission's tool-use id — from the
payload, else the youngest active tool in the ledger with the same tool
name (section 4.2, `PermissionRequest`). -/
def resolveToolUseId (payloadId : Option String) (tools : List ActiveTool)
    (toolName : String) : Option String :=
  match payloadId with
  | some i => some i
  | none =>
    ((tools.filter (fun t => t.toolName = toolName)).getLast?).map
      (fun t => t.toolUseId)

/-- The synthetic task published while a compaction is in progress. -/
def syntheticCompactingTask : ActiveTask :=
  ⟨"compacting", "System", "Compacting context"⟩

/-- Modelled from the spec: `PostToolUse` / `PostToolUseFailure` handling
(section 4.2) — selective cancel of the permission debounce (only when the
debounce's resolved tool-use id is unknown or equals this event's
tool-use id); then fire `WORKING` when in `needs_approval`; remove the
tool from `activeTools`; for a `Task`, remove it from `activeTasks` and
fire `TASKS_DONE` when the ledger becomes empty. -/
def handlePostToolCore (toolName toolUseId : String) (w : World) : World :=
  match w.session with
  | none => w
  | some s =>
    let timer1 : Option PermTimer :=
      match w.timer with
      | none => none
      | some t =>
        if t.permission.tool_use_id = none ∨
            t.permission.tool_use_id = some toolUseId then none
        else some t
    let w1 := { w with timer := timer1 }
    let w2 :=
      if s.machineState = .needs_approval then
        fireTransition w1 .WORKING ("hook")
      else w1
    match w2.session with
    | none => w2
    | some s2 =>
      let s3 := { s2 with
        activeTools := s2.activeTools.filter (fun t => t.toolUseId ≠ toolUseId) }
      if toolName = "Task" then
        let s4 := { s3 with
          activeTasks :=
            s3.activeTasks.filter (fun t => t.toolUseId ≠ toolUseId) }
        let w3 := { w2 with session := some s4 }
        if s4.activeTasks = [] then fireTransition w3 .TASKS_DONE ("hook")
        else emitUpdate w3
      else
        emitUpdate { w2 with session := some s3 }

/-- Modelled from the spec: the hook ingest dispatcher
(`SessionWatcher.handleHook`, section 4.2).  `UserPromptSubmit` creates
the session in `working` or fires `WORKING`; `PermissionRequest` resolves
a tool-use id and (re)schedules the permission debounce of
`permissionDelayMs`; `PreToolUse` records the tool (and for `Task` the
task, firing `TASK_STARTED`); `PostToolUse`(`Failure`) is handled by
`handlePostToolCore`; `Stop` cancels the debounce, clears the compacting
state and fires `STOP`; `SessionEnd` cancels the debounce and fires
`ENDED` (ignored from `waiting` unless the reason is prompt-input-exit,
per the policy the spec documents in sections 4.2 and 9); `PreCompact`
records the synthetic compacting task; `Advance` moves the clock and
fires a due debounce timer, installing `pendingPermission` and firing
`PERMISSION_REQUEST`. -/
def handleHook (w : World) (h : HookInput) : World :=
  match h with
  | .UserPromptSubmit =>
    match w.session with
    | none =>
      let s := newSession w.wt
      { w with session := some s, emits := w.emits ++ [snapshotOf s] }
    | some _ => fireTransition w .WORKING ("hook")
  | .PreToolUse toolName toolUseId subagentType description =>
    match w.session with
    | none => w
    | some s =>
      let s1 := { s with activeTools := s.activeTools ++ [⟨toolUseId, toolName⟩] }
      if toolName = "Task" then
        let s2 := { s1 with
          activeTasks :=
            s1.activeTasks ++ [⟨toolUseId, subagentType, description⟩] }
        fireTransition { w with session := some s2 } .TASK_STARTED ("hook")
      else
        emitUpdate { w with session := some s1 }
  | .PermissionRequest toolName toolUseId =>
    match w.session with
    | none => w
    | some s =>
      let resolved := resolveToolUseId toolUseId s.activeTools toolName
      let t : PermTimer := ⟨w.now + w.permissionDelayMs, ⟨toolName, resolved⟩⟩
      { w with timer := some t }
  | .PostToolUse toolName toolUseId => handlePostToolCore toolName toolUseId w
  | .PostToolUseFailure toolName toolUseId =>
    handlePostToolCore toolName toolUseId w
  | .Stop =>
    match w.session with
    | none => { w with timer := none }
    | some s =>
      let s1 := { s with
        compacting := false,
        activeTasks :=
          s.activeTasks.filter (fun t => t.toolUseId ≠ "compacting") }
      fireTransition { w with session := some s1, timer := none } .STOP
        ("hook")
  | .SessionEnd reason =>
    match w.session with
    | none => { w with timer := none }
    | some s =>
      let w1 := { w with timer := none }
      if s.machineState = .waiting ∧ reason ≠ some ("prompt_input_exit") then
        w1
      else fireTransition w1 .ENDED ("hook")
  | .PreCompact =>
    match w.session with
    | none => w
    | some s =>
      let s1 := { s with
        compacting := true,
        activeTasks :=
          if s.activeTasks.any (fun t => t.toolUseId = "compacting") then
            s.activeTasks
          else s.activeTasks ++ [syntheticCompactingTask] }
      emitUpdate { w with session := some s1 }
  | .Advance ms =>
    let now1 := w.now + ms
    match w.timer with
    | some t =>
      if t.deadline ≤ now1 then
        match w.session with
        | none => { w with now := now1, timer := none }
        | some s =>
          let s1 := { s with pendingPermission := some t.permission }
          fireTransition
            { w with now := now1, timer := none, session := some s1 }
            .PERMISSION_REQUEST ("hook")
      else { w with now := now1 }
    | none => { w with now := now1 }

/-- Process one input and record the resulting machine state in the
trace. -/
def stepHook (w : World) (h : HookInput) : World :=
  let w1 := handleHook w h
  { w1 with trace := w1.trace ++ [w1.session.map Session.machineState] }

/-- Process a list of inputs. -/
def runHooks (w : World) (hs : List HookInput) : World := hs.foldl stepHook w

/-- The initial world: no session, no timer, clock at zero, default
permission delay of 3000 ms, non-worktree. -/
def initWorld : World :=
  { session := none, timer := none, now := 0, permissionDelayMs := 3000,
    wt := false, emits := [], trace := [] }

/-- Scenario B of the spec: auto-approved tool within the debounce. -/
def scenarioB : List HookInput :=
  [ .UserPromptSubmit
  , .PreToolUse ("EnterPlanMode") ("T1") ("") ("")
  , .PermissionRequest ("EnterPlanMode") (some ("T1"))
  , .Advance 500
  , .PostToolUse ("EnterPlanMode") ("T1")
  , .Advance 3000 ]

/-- Scenario E of the spec: a concurrent sibling tool completes while a
different tool's permission debounce is pending. -/
def scenarioE : List HookInput :=
  [ .UserPromptSubmit
  , .PreToolUse ("Bash") ("TB") ("") ("")
  , .PermissionRequest ("Bash") (some ("TB"))
  , .Advance 500
  , .PreToolUse ("Read") ("TR") ("") ("")
  , .PostToolUse ("Read") ("TR")
  , .Advance 3000 ]

/-- Scenario E up to and including the sibling tool's `PostToolUse`. -/
def scenarioEPrefix : List HookInput := scenarioE.take 6

-- ---------------------------------------------------------------------------
-- 4. Stale check (spec-modelled)
-- ---------------------------------------------------------------------------

/-- Interval of the global periodic stale check (spec sections 4.5, 6). -/
def STALE_CHECK_INTERVAL_MS : Nat := 10000

/-- Threshold on `lastActivityAt` for the stale check (spec sections 4.5,
5, 6: `staleThresholdMs`, default 60 000). -/
def STALE_THRESHOLD_MS : Nat := 60000

/-- Modelled from the spec: the body of `checkStaleSessions` for one
registered session (section 4.5) — a `working` session silent for more
than the threshold gets `STOP` with source stale-check; a `review` session
whose worktree is no longer reachable gets `WORKTREE_DELETED`; `tasking`
is deliberately excluded. -/
def staleCheckSession (now : Nat) (s : Session) (timer : Option PermTimer) :
    TransitionResult :=
  if s.machineState = .working ∧
      now - s.lastActivityAt > STALE_THRESHOLD_MS then
    transitionSession s timer .STOP ("stale-check")
  else if s.machineState = .review ∧ s.worktreeReachable = false then
    transitionSession s timer .WORKTREE_DELETED ("stale-check")
  else
    ⟨s, timer, false, [], [], []⟩

-- ---------------------------------------------------------------------------
-- 5. String helpers shared by the HTTP layers and the tag stripper
-- ---------------------------------------------------------------------------

/-- Whether the first list is a prefix of the second. -/
def listStartsWith : List Char → List Char → Bool
  | [], _ => true
  | _ :: _, [] => false
  | p :: ps, c :: cs => p == c && listStartsWith ps cs

/-- One character of the session-id character class `[A-Za-z0-9_-]`. -/
def sessionIdChar (c : Char) : Bool :=
  c.isAlpha || c.isDigit || c == '_' || c == '-'

/-- Embedded from `SESSION_ID_RE = /^[a-zA-Z0-9_-]+$/` in
`log-server.ts`: a full match of the session-id pattern. -/
def sessionIdOk (s : List Char) : Bool := !s.isEmpty && s.all sessionIdChar

-- ---------------------------------------------------------------------------
-- 6. Hook ingest endpoint (hook-handler.ts)
-- ---------------------------------------------------------------------------

/-- JSON values, the input space of the payload validator. -/
inductive Json where
  | null
  | bool (b : Bool)
  | num (n : Int)
  | str (s : String)
  | arr (elts : List Json)
  | obj (fields : List (String × Json))

/-- First-match lookup of a key in a JSON object's field list. -/
def jlookup (key : String) : List (String × Json) → Option Json
  | [] => none
  | (k, v) :: rest => if k = key then some v else jlookup key rest

/-- The recognized hook event names (`HookEventNames` in
`hook-handler.ts`). -/
def HookEventNames : List String :=
  [ "SessionStart"
  , "UserPromptSubmit"
  , "PermissionRequest"
  , "PreToolUse"
  , "PostToolUse"
  , "PostToolUseFailure"
  , "Stop"
  , "SessionEnd"
  , "PreCompact"
  , "Notification"
  , "SubagentStart"
  , "SubagentStop"
  , "TeammateIdle"
  , "TaskCompleted" ]

/-- Whether an optional `z.string().optional()` field is absent or a
string. -/
def isOptionalStringField (fields : List (String × Json)) (key : String) :
    Bool :=
  match jlookup key fields with
  | none => true
  | some (.str _) => true
  | some _ => false

/-- The optional string-valued keys of `HookPayloadSchema`. -/
def optionalStringKeys : List String :=
  [ "transcript_path"
  , "cwd"
  , "tool_name"
  , "tool_use_id"
  , "permission_mode"
  , "reason"
  , "prompt"
  , "source"
  , "agent_id"
  , "agent_type" ]

/-- Whether the optional `tool_input` record field is absent or an
object. -/
def toolInputOk (fields : List (String × Json)) : Bool :=
  match jlookup ("tool_input") fields with
  | none => true
  | some (.obj _) => true
  | some _ => false

/-- Embedded from `HookPayloadSchema` in `hook-handler.ts`: an object
whose `hook_event_name` is one of the recognized names, whose
`session_id` is a string of length at least 1 (`z.string().min(1)` — no
character-class check), whose optional fields have the right shapes, and
with unknown extra keys passed through. -/
def hookPayloadValid : Json → Bool
  | .obj fields =>
    (match jlookup ("hook_event_name") fields with
      | some (.str s) => HookEventNames.contains s
      | _ => false)
    && (match jlookup ("session_id") fields with
      | some (.str s) => decide (1 ≤ s.length)
      | _ => false)
    && optionalStringKeys.all (isOptionalStringField fields)
    && toolInputOk fields
  | _ => false

/-- Response bodies of the hook endpoint. -/
inductive HookBody where
  | invalidJson
  | validationError
  | okTrue
  | internalError
  deriving DecidableEq, Repr

/-- An HTTP response of the hook endpoint. -/
structure HookResponse where
  status : Nat
  body : HookBody
  deriving DecidableEq, Repr

/-- Embedded from `handleHookRequest` in `hook-handler.ts`: a body that
fails `JSON.parse` gets 400; a parsed body failing the schema gets 400; a
valid payload gets 200 `ok`, or 500 when the watcher's handler throws. -/
def handleHookRequest (parsed : Except Unit Json) (handlerThrows : Bool) :
    HookResponse :=
  match parsed with
  | .error _ => ⟨400, .invalidJson⟩
  | .ok j =>
    if hookPayloadValid j then
      if handlerThrows then ⟨500, .internalError⟩ else ⟨200, .okTrue⟩
    else ⟨400, .validationError⟩

/-- A syntactically valid payload whose `session_id` violates the
`[A-Za-z0-9_-]+` shape the spec requires. -/
def c7Payload : Json :=
  .obj [("hook_event_name", .str ("Stop")),
        ("session_id", .str ("../../etc/passwd"))]

/-- A plainly valid payload. -/
def c7GoodFields : List (String × Json) :=
  [("hook_event_name", .str ("Stop")), ("session_id", .str ("abc"))]

-- ---------------------------------------------------------------------------
-- 7. Transition-log HTTP server (log-server.ts)
-- ---------------------------------------------------------------------------

/-- The literal route prefix of the `/logs/:sessionId` matcher. -/
def LOGS_ROUTE : List Char := ("/logs/").toList

/-- Embedded from the URL matcher `/^\/logs\/([^/]+)$/`: the whole URL is
the route prefix followed by one non-empty slash-free segment. -/
def urlMatchLogSeg (url : List Char) : Option (List Char) :=
  if listStartsWith LOGS_ROUTE url then
    let seg := url.drop LOGS_ROUTE.length
    if seg.isEmpty then none
    else if seg.all (fun c => !(c == '/')) then some seg
    else none
  else none

/-- The per-session transition-log directory. -/
def SESSION_LOGS_DIR : List Char := ("~/.claude/session-logs/").toList

/-- The file path `join(SESSION_LOGS_DIR, sessionId + ".log")`. -/
def sessionLogPath (seg : List Char) : List Char :=
  SESSION_LOGS_DIR ++ seg ++ (".log").toList

/-- The `Content-Disposition` header value
`attachment; filename="<sessionId>.log"`. -/
def dispositionFor (seg : List Char) : List Char :=
  ("attachment; filename=\"").toList ++ seg ++ (".log\"").toList

/-- An HTTP response of the log server: status, `Content-Type`,
`Content-Disposition`, and the log-file path touched (accessed or
streamed), if any. -/
structure LogResponse where
  status : Nat
  contentType : Option String
  contentDisposition : Option (List Char)
  fileTouched : Option (List Char)
  deriving DecidableEq, Repr

/-- Embedded from the request handler in `startLogServer`
(`log-server.ts`): OPTIONS → 204; non-GET → 405; URL not matching the
route → 404; segment failing `SESSION_ID_RE` → 400 with no file access;
missing log → 404; otherwise 200 streaming the file with the text/plain
content type and the attachment disposition. -/
def logServerHandle (logExists : List Char → Bool) (method : String)
    (url : List Char) : LogResponse :=
  if method = "OPTIONS" then ⟨204, none, none, none⟩
  else if ¬ method = "GET" then ⟨405, some ("text/plain"), none, none⟩
  else
    match urlMatchLogSeg url with
    | none => ⟨404, some ("text/plain"), none, none⟩
    | some seg =>
      if sessionIdOk seg then
        if logExists seg then
          ⟨200, some ("text/plain; charset=utf-8"),
            some (dispositionFor seg), some (sessionLogPath seg)⟩
        else ⟨404, some ("text/plain"), none, some (sessionLogPath seg)⟩
      else ⟨400, some ("text/plain"), none, none⟩

-- ---------------------------------------------------------------------------
-- 8. System-tag stripper (strip-tags.ts)
--
-- Strings are modelled as `List Char`.  The JavaScript regex replaces are
-- embedded as left-to-right scans over the original string, exactly as a
-- global `String.replace` behaves: matches are found in the input,
-- non-overlapping, and never re-matched against the output.
-- ---------------------------------------------------------------------------

/-- The tag names of `SYSTEM_TAGS` in `strip-tags.ts`. -/
def SYSTEM_TAGS : List (List Char) :=
  [ ("ide_opened_file").toList
  , ("ide_selection").toList
  , ("task-notification").toList
  , ("system-reminder").toList
  , ("command-name").toList
  , ("command-message").toList ]

/-- The literal opening delimiter of a tag. -/
def openTag (tag : List Char) : List Char := '<' :: (tag ++ ['>'])

/-- The literal closing delimiter of a tag. -/
def closeTag (tag : List Char) : List Char := '<' :: '/' :: (tag ++ ['>'])

/-- Split a list at the first occurrence of a (non-empty) literal
pattern: `some (before, after)` with the input equal to
`before ++ pat ++ after` and no earlier occurrence, `none` when the
pattern does not occur. -/
def splitFirst (pat : List Char) : List Char → Option (List Char × List Char)
  | [] => none
  | c :: rest =>
    if listStartsWith pat (c :: rest) then
      some ([], (c :: rest).drop pat.length)
    else
      match splitFirst pat rest with
      | some (a, b) => some (c :: a, b)
      | none => none

/-- Whether a literal pattern occurs in a list (executable). -/
def containsPat (pat s : List Char) : Bool := (splitFirst pat s).isSome

/-- Whether a literal pattern occurs in a list (propositional). -/
def Occurs (pat s : List Char) : Prop := ∃ a b, s = a ++ pat ++ b

/-- Embedded from the global non-greedy replace of
`/<tag>[\s\S]*?<\/tag>/g` by the empty string: repeatedly remove the span
from the first opening delimiter to the first closing delimiter after it,
continuing after the removed span; when an opening delimiter has no
closing delimiter after it there is no match at all and the input is
returned.  The fuel is one recursion step per match; each match consumes
at least the two delimiters, so `s.length` fuel is always sufficient. -/
def removeClosedTagFuel (tag : List Char) : Nat → List Char → List Char
  | 0, s => s
  | fuel + 1, s =>
    match splitFirst (openTag tag) s with
    | none => s
    | some (pre, rest) =>
      match splitFirst (closeTag tag) rest with
      | none => s
      | some (_, after) => pre ++ removeClosedTagFuel tag fuel after

/-- The closed-tag remover at adequate fuel. -/
def removeClosedTag (tag s : List Char) : List Char :=
  removeClosedTagFuel tag s.length s

/-- Embedded from the (non-global) replace of `/<tag>[\s\S]*$/` by the
empty string: drop everything from the first opening delimiter to the end
of the string. -/
def removeUnclosedTag (tag s : List Char) : List Char :=
  match splitFirst (openTag tag) s with
  | none => s
  | some (pre, _) => pre

/-- The boilerplate literal of
`/Read the output file to retrieve the result:.*$/gm`. -/
def BOILER : List Char :=
  ("Read the output file to retrieve the result:").toList

/-- A JavaScript regex line terminator (what `.` never matches and a
multiline `$` asserts before). -/
def isLineTerm (c : Char) : Bool :=
  c == '\n' || c == '\r' || c == (Char.ofNat 0x2028) || c == (Char.ofNat 0x2029)

/-- Embedded from the global multiline replace of the boilerplate
pattern: each occurrence of the literal is removed together with the rest
of its line (`.*` stops at a line terminator, which stays), and scanning
continues from that terminator.  Each match consumes at least the
literal, so `s.length` fuel is always sufficient. -/
def removeBoilerplateFuel : Nat → List Char → List Char
  | 0, s => s
  | fuel + 1, s =>
    match splitFirst BOILER s with
    | none => s
    | some (pre, rest) =>
      pre ++ removeBoilerplateFuel fuel
        (rest.dropWhile (fun c => !(isLineTerm c)))

/-- The boilerplate remover at adequate fuel. -/
def removeBoilerplate (s : List Char) : List Char :=
  removeBoilerplateFuel s.length s

/-- Embedded from the global replace of `/\n{3,}/g` by two newlines:
every maximal run of three or more newlines collapses to exactly two.
`pending` counts the newlines read but not yet emitted. -/
def collapseGo (pending : Nat) : List Char → List Char
  | [] => List.replicate (min pending 2) '\n'
  | c :: rest =>
    if c = '\n' then collapseGo (pending + 1) rest
    else
      List.replicate (min pending 2) '\n' ++ c :: collapseGo 0 rest

/-- The newline collapser. -/
def collapseNewlines (s : List Char) : List Char := collapseGo 0 s

/-- The JavaScript whitespace set trimmed by `String.prototype.trim`:
WhiteSpace (tab, VT, FF, space, NBSP, BOM and the Unicode space
separators) together with the line terminators. -/
def JS_WHITESPACE : List Char :=
  [ ' ', '\t', '\n', '\r'
  , Char.ofNat 0xb, Char.ofNat 0xc, Char.ofNat 0xa0, Char.ofNat 0x1680
  , Char.ofNat 0x2000, Char.ofNat 0x2001, Char.ofNat 0x2002
  , Char.ofNat 0x2003, Char.ofNat 0x2004, Char.ofNat 0x2005
  , Char.ofNat 0x2006, Char.ofNat 0x2007, Char.ofNat 0x2008
  , Char.ofNat 0x2009, Char.ofNat 0x200a, Char.ofNat 0x2028
  , Char.ofNat 0x2029, Char.ofNat 0x202f, Char.ofNat 0x205f
  , Char.ofNat 0x3000, Char.ofNat 0xfeff ]

/-- Whether a character is JavaScript whitespace. -/
def isJSWhitespace (c : Char) : Bool := JS_WHITESPACE.contains c

/-- Trim leading JavaScript whitespace. -/
def trimLeft (s : List Char) : List Char := s.dropWhile isJSWhitespace

/-- Trim trailing JavaScript whitespace. -/
def trimRight (s : List Char) : List Char :=
  (s.reverse.dropWhile isJSWhitespace).reverse

/-- `String.prototype.trim`. -/
def trimStr (s : List Char) : List Char := trimRight (trimLeft s)

/-- Embedded from `stripSystemTags` in `strip-tags.ts`: the empty string
is returned as is (the falsy guard); otherwise strip every closed tag,
then every truncated open tag, then the boilerplate lines, then collapse
runs of three or more newlines to two and trim. -/
def stripSystemTags (s : List Char) : List Char :=
  if s = [] then []
  else
    let r1 := SYSTEM_TAGS.foldl (fun acc t => removeClosedTag t acc) s
    let r2 := SYSTEM_TAGS.foldl (fun acc t => removeUnclosedTag t acc) r1
    let r3 := removeBoilerplate r2
    trimStr (collapseNewlines r3)

-- ===========================================================================
-- Theorems
-- ===========================================================================

/-- C1: for every machine state, every machine event of the spec's event set
(`TOOL_ACTIVITY` is not part of it) and every worktree flag, the pure
`transition` function returns exactly the state given by the spec's
transition table, and every pair not listed in the table keeps the current
state. -/
theorem transition_matches_spec_table :
    ∀ (s : MachineState) (e : MEvent) (w : Bool), e ≠ .TOOL_ACTIVITY →
      transition s e w = specTransition s e w := by
  intro s e w h
  cases s <;> cases e <;> cases w <;> first
    | rfl
    | exact absurd rfl h

/-- Witness for C1: the theorem applied at a concrete state, event and flag,
with its hypothesis discharged there. -/
theorem transition_matches_spec_table_witness :
    MEvent.STOP ≠ MEvent.TOOL_ACTIVITY ∧
      transition .working .STOP true = specTransition .working .STOP true :=
  ⟨by decide, transition_matches_spec_table .working .STOP true (by decide)⟩

/-- C2: `machineStateToPublishedStatus` publishes `hasPendingToolUse = true`
exactly on `needs_approval`, publishes `waiting` for `needs_approval`, and
publishes every other state under its own name.  (The published status type
has no `needs_approval` value at all, so the internal state never appears
as a published status.) -/
theorem machineStateToPublishedStatus_spec :
    ∀ s : MachineState,
      ((machineStateToPublishedStatus s).hasPendingToolUse = true ↔
        s = .needs_approval) ∧
      (machineStateToPublishedStatus MachineState.needs_approval).status =
        .waiting ∧
      (s ≠ .needs_approval →
        (machineStateToPublishedStatus s).status = statusNameOf s) := by
  intro s
  cases s <;> simp [machineStateToPublishedStatus, statusNameOf]

/-- Witness for C2: the theorem applied at a concrete state, with the
hypothesis of its last conjunct discharged there. -/
theorem machineStateToPublishedStatus_spec_witness :
    (machineStateToPublishedStatus MachineState.working).status =
      statusNameOf .working :=
  (machineStateToPublishedStatus_spec .working).2.2 (by decide)

/-- Helper: from `working`, `TASK_STARTED` always lands on `tasking`. -/
theorem transition_working_TASK_STARTED (w : Bool) :
    transition .working .TASK_STARTED w = .tasking := rfl

/-- Helper: one commit with an unchanged next state is a complete no-op. -/
theorem transitionStep_unchanged (s : Session) (timer : Option PermTimer)
    (e : MEvent) (src : String)
    (h : transition s.machineState e s.isWorktree = s.machineState) :
    transitionSessionStep s timer e src = ⟨s, timer, false, [], [], []⟩ := by
  simp [transitionSessionStep, h]

/-- Helper: the observable fields of one committing step. -/
theorem transitionStep_changed (s : Session) (timer : Option PermTimer)
    (e : MEvent) (src : String)
    (h : transition s.machineState e s.isWorktree ≠ s.machineState) :
    (transitionSessionStep s timer e src).session.machineState =
        transition s.machineState e s.isWorktree ∧
      (transitionSessionStep s timer e src).session.activeTasks =
        s.activeTasks ∧
      (transitionSessionStep s timer e src).session.isWorktree =
        s.isWorktree ∧
      (transitionSessionStep s timer e src).changed = true ∧
      (transitionSessionStep s timer e src).audit =
        [⟨s.machineState, transition s.machineState e s.isWorktree, e, src⟩]
    := by
  simp only [transitionSessionStep]
  rw [if_neg h]
  refine ⟨rfl, ?_, ?_, rfl, rfl⟩
  · split <;> rfl
  · split <;> rfl

/-- C8: when `transitionSession` computes a next state equal to the previous
state it returns false without mutating the session, without appending an
audit line, without emitting any session event and without any cleanup;
in particular a repeated `Stop` on a session already in `waiting` is a
complete no-op. -/
theorem transitionSession_noop_when_unchanged :
    ∀ (s : Session) (timer : Option PermTimer) (e : MEvent) (src : String),
      transition s.machineState e s.isWorktree = s.machineState →
      transitionSession s timer e src = ⟨s, timer, false, [], [], []⟩ := by
  intro s timer e src h
  simp [transitionSession, transitionSessionStep, h]

/-- Witness for C8: a repeated `Stop` on a concrete session already in
`waiting` changes nothing. -/
theorem transitionSession_noop_when_unchanged_witness :
    transition c8WaitingSession.machineState .STOP
        c8WaitingSession.isWorktree = c8WaitingSession.machineState ∧
      transitionSession c8WaitingSession none .STOP ("hook") =
        ⟨c8WaitingSession, none, false, [], [], []⟩ :=
  ⟨by decide,
    transitionSession_noop_when_unchanged c8WaitingSession none .STOP
      ("hook") (by decide)⟩

/-- Counterexample to C5 as stated: for a session whose machine state is
already `working` with a non-empty `activeTasks` ledger, a `WORKING` event
computes next state `working` with a non-empty ledger, yet
`transitionSession` returns on the `next == prev` early exit without
firing `TASK_STARTED`, so the observable state after the call is
`working` with active tasks, not `tasking`. -/
theorem transitionSession_escalation_counterexample :
    transition c5Session.machineState .WORKING c5Session.isWorktree =
        .working ∧
      c5Session.activeTasks ≠ [] ∧
      (transitionSession c5Session none .WORKING ("hook")).session.machineState
        = .working ∧
      (transitionSession c5Session none .WORKING ("hook")).session.activeTasks
        ≠ [] ∧
      (transitionSession c5Session none .WORKING ("hook")).audit = [] := by
  refine ⟨by decide, by decide, by decide, by decide, by decide⟩

/-- C5 (amended): whenever `transitionSession` commits a change — the
computed next state differs from the previous one — and that next state is
`working` while `activeTasks` is non-empty, it recursively fires
`TASK_STARTED` (depth one, with source `hook` and the auto-escalate
signal), so the observable machine state after the call is `tasking` and
the audit shows exactly the two transitions. -/
theorem transitionSession_auto_escalates :
    ∀ (s : Session) (timer : Option PermTimer) (e : MEvent) (src : String),
      transition s.machineState e s.isWorktree = .working →
      s.machineState ≠ .working →
      s.activeTasks ≠ [] →
      (transitionSession s timer e src).session.machineState = .tasking ∧
      (transitionSession s timer e src).changed = true ∧
      (transitionSession s timer e src).audit =
        [⟨s.machineState, .working, e, src⟩,
         ⟨.working, .tasking, .TASK_STARTED, "hook"⟩] := by
  intro s timer e src h1 h2 h3
  have hne : transition s.machineState e s.isWorktree ≠ s.machineState := by
    rw [h1]; exact fun hc => h2 hc.symm
  obtain ⟨m1, a1, w1, c1, au1⟩ := transitionStep_changed s timer e src hne
  have hm1 : (transitionSessionStep s timer e src).session.machineState =
      .working := by rw [m1, h1]
  have hcond : (transitionSessionStep s timer e src).changed = true ∧
      (transitionSessionStep s timer e src).session.machineState = .working ∧
      (transitionSessionStep s timer e src).session.activeTasks ≠ [] :=
    ⟨c1, hm1, by rw [a1]; exact h3⟩
  have hinner : transition
      (transitionSessionStep s timer e src).session.machineState
      .TASK_STARTED
      (transitionSessionStep s timer e src).session.isWorktree ≠
      (transitionSessionStep s timer e src).session.machineState := by
    rw [hm1, transition_working_TASK_STARTED]; decide
  obtain ⟨m2, a2, w2, c2, au2⟩ :=
    transitionStep_changed (transitionSessionStep s timer e src).session
      (transitionSessionStep s timer e src).timer .TASK_STARTED ("hook")
      hinner
  unfold transitionSession
  rw [if_pos hcond]
  refine ⟨?_, rfl, ?_⟩
  · show (transitionSessionStep _ _ _ _).session.machineState = _
    rw [m2, hm1, transition_working_TASK_STARTED]
  · show (transitionSessionStep s timer e src).audit ++
      (transitionSessionStep _ _ _ _).audit = _
    rw [au1, au2, h1, hm1, transition_working_TASK_STARTED]
    rfl

/-- Witness for C5 (amended): a concrete `tasking` session with one active
task receiving `TASKS_DONE` lands back on `tasking` through the
auto-escalation. -/
theorem transitionSession_auto_escalates_witness :
    transition c5TaskingSession.machineState .TASKS_DONE
        c5TaskingSession.isWorktree = .working ∧
      (transitionSession c5TaskingSession none .TASKS_DONE
        ("hook")).session.machineState = .tasking :=
  ⟨by decide,
    (transitionSession_auto_escalates c5TaskingSession none .TASKS_DONE
      ("hook") (by decide) (by decide) (by decide)).1⟩

/-- C3 (spec-modelled): in Scenario E the completion of sibling tool TR
does not cancel the pending permission debounce for TB — after the
sibling's `PostToolUse` the timer is still armed with resolved id TB —
and once the debounce elapses the machine of S is `needs_approval`,
published with `hasPendingToolUse = true`. -/
theorem scenarioE_sibling_does_not_cancel_debounce :
    ((runHooks initWorld scenarioE).session.map Session.machineState) =
        some .needs_approval ∧
      ((runHooks initWorld scenarioE).session.map
        (fun s => (machineStateToPublishedStatus s.machineState))) =
        some ⟨.waiting, true⟩ ∧
      (runHooks initWorld scenarioEPrefix).timer =
        some ⟨3000, ⟨"Bash", some ("TB")⟩⟩ := by
  refine ⟨by decide, by decide, by decide⟩

/-- C4 (spec-modelled): in Scenario B the machine of S stays `working` at
every point of the sequence — every recorded state is `working` and every
published snapshot has status `working` — and no published snapshot ever
has `hasPendingToolUse = true`: the permission debounce is cancelled by
the tool's own `PostToolUse` before its 3000 ms delay elapses. -/
theorem scenarioB_stays_working_no_flicker :
    (∀ o ∈ (runHooks initWorld scenarioB).trace,
        o = some MachineState.working) ∧
      (∀ p ∈ (runHooks initWorld scenarioB).emits,
        p.hasPendingToolUse = false) ∧
      (∀ p ∈ (runHooks initWorld scenarioB).emits, p.status = .working) ∧
      ((runHooks initWorld scenarioB).session.map Session.machineState) =
        some .working ∧
      (runHooks initWorld scenarioB).timer = none := by
  refine ⟨by decide, by decide, by decide, by decide, by decide⟩

/-- Helper: from `working`, `STOP` lands on `review` for worktrees and on
`waiting` otherwise. -/
theorem transition_working_STOP (w : Bool) :
    transition .working .STOP w = if w then .review else .waiting := rfl

/-- C6 (spec-modelled): when the periodic stale check (10 s interval,
60 s threshold) visits a registered session, a `working` session whose
elapsed time exceeds the threshold gets a `STOP` fired through
`transitionSession` with source stale-check (recorded in the audit), and
a `tasking` session is never subjected to the stale timeout. -/
theorem staleCheck_stops_stale_working_only :
    ∀ (now : Nat) (s : Session) (timer : Option PermTimer),
      (s.machineState = .working →
        now - s.lastActivityAt > STALE_THRESHOLD_MS →
        staleCheckSession now s timer =
            transitionSession s timer .STOP ("stale-check") ∧
          (staleCheckSession now s timer).audit =
            [⟨.working, if s.isWorktree then .review else .waiting, .STOP,
              "stale-check"⟩]) ∧
      (s.machineState = .tasking →
        staleCheckSession now s timer = ⟨s, timer, false, [], [], []⟩) ∧
      STALE_THRESHOLD_MS = 60000 ∧ STALE_CHECK_INTERVAL_MS = 10000 := by
  intro now s timer
  refine ⟨?_, ?_, rfl, rfl⟩
  · intro hm helapsed
    have hsel : staleCheckSession now s timer =
        transitionSession s timer .STOP ("stale-check") := by
      simp [staleCheckSession, hm, helapsed]
    refine ⟨hsel, ?_⟩
    rw [hsel]
    have hne : transition s.machineState .STOP s.isWorktree ≠
        s.machineState := by
      rw [hm, transition_working_STOP]
      cases s.isWorktree <;> decide
    obtain ⟨m1, a1, w1, c1, au1⟩ :=
      transitionStep_changed s timer .STOP ("stale-check") hne
    have hnw : (transitionSessionStep s timer .STOP
        ("stale-check")).session.machineState ≠ .working := by
      rw [m1, hm, transition_working_STOP]
      cases s.isWorktree <;> decide
    unfold transitionSession
    rw [if_neg (fun hc => hnw hc.2.1)]
    rw [au1, hm, transition_working_STOP]
  · intro hm
    simp [staleCheckSession, hm]

/-- Witness for C6: a concrete stale `working` session is stopped by the
check and a concrete `tasking` session is untouched. -/
theorem staleCheck_stops_stale_working_only_witness :
    staleCheckSession 70001 c5Session none =
        transitionSession c5Session none .STOP ("stale-check") ∧
      staleCheckSession 70001 c5TaskingSession none =
        ⟨c5TaskingSession, none, false, [], [], []⟩ :=
  ⟨((staleCheck_stops_stale_working_only 70001 c5Session none).1
      (by decide) (by decide)).1,
    (staleCheck_stops_stale_working_only 70001 c5TaskingSession none).2.1
      (by decide)⟩

/-- Helper: appending an entry with a different key does not change a
lookup. -/
theorem jlookup_append_ne (key k : String) (v : Json)
    (l : List (String × Json)) (h : k ≠ key) :
    jlookup key (l ++ [(k, v)]) = jlookup key l := by
  induction l with
  | nil => simp [jlookup, h]
  | cons p rest ih =>
    obtain ⟨k', v'⟩ := p
    by_cases hk : k' = key
    · simp [jlookup, hk]
    · simp [jlookup, hk, ih]

/-- Helper: appending an entry with a fresh key keeps every optional
string-field check over a key list avoiding it. -/
theorem all_isOptionalStringField_append (keys : List String)
    (fields : List (String × Json)) (k : String) (v : Json)
    (hk : ∀ key ∈ keys, key ≠ k) :
    keys.all (isOptionalStringField (fields ++ [(k, v)])) =
      keys.all (isOptionalStringField fields) := by
  induction keys with
  | nil => rfl
  | cons a rest ih =>
    have ha : k ≠ a := fun heq => hk a (by simp) heq.symm
    simp only [List.all_cons]
    rw [ih fun key hmem => hk key (by simp [hmem])]
    have : isOptionalStringField (fields ++ [(k, v)]) a =
        isOptionalStringField fields a := by
      simp only [isOptionalStringField, jlookup_append_ne a k v fields ha]
    rw [this]

/-- Counterexample to C7 as stated: a payload whose `session_id` does not
match `[A-Za-z0-9_-]+` (it contains `/` and `.`) still passes validation
— `HookPayloadSchema` only requires a non-empty string — and receives
200, not the 400 the claim requires. -/
theorem hookIngest_shape_counterexample :
    handleHookRequest (.ok c7Payload) false = ⟨200, .okTrue⟩ ∧
      sessionIdOk (("../../etc/passwd").toList) = false :=
  ⟨by decide, by decide⟩

/-- C7 (amended): a body that is not valid JSON gets 400; a JSON body
missing `hook_event_name`, with an unknown `hook_event_name`, or with a
missing or empty `session_id` gets 400; the `session_id` shape beyond
non-emptiness is not validated (validation only guarantees length ≥ 1); a
payload passing validation gets 200 `ok`, with unknown extra fields
accepted without error; an exception in the handler of a valid payload
gets 500. -/
theorem hookIngest_validation :
    ∀ (fields : List (String × Json)) (ht : Bool),
      (handleHookRequest (.error ()) ht).status = 400 ∧
      (jlookup ("hook_event_name") fields = none →
        (handleHookRequest (.ok (.obj fields)) ht).status = 400) ∧
      (∀ name, jlookup ("hook_event_name") fields = some (.str name) →
        name ∉ HookEventNames →
        (handleHookRequest (.ok (.obj fields)) ht).status = 400) ∧
      (jlookup ("session_id") fields = none ∨
          jlookup ("session_id") fields = some (.str ("")) →
        (handleHookRequest (.ok (.obj fields)) ht).status = 400) ∧
      (hookPayloadValid (.obj fields) = true → ht = false →
        handleHookRequest (.ok (.obj fields)) ht = ⟨200, .okTrue⟩) ∧
      (hookPayloadValid (.obj fields) = true → ht = true →
        handleHookRequest (.ok (.obj fields)) ht = ⟨500, .internalError⟩) ∧
      (∀ s, hookPayloadValid (.obj fields) = true →
        jlookup ("session_id") fields = some (.str s) → 1 ≤ s.length) ∧
      (∀ (k : String) (v : Json), k ∉ optionalStringKeys →
        k ≠ "hook_event_name" → k ≠ "session_id" → k ≠ "tool_input" →
        hookPayloadValid (.obj fields) = true →
        hookPayloadValid (.obj (fields ++ [(k, v)])) = true) := by
  intro fields ht
  refine ⟨rfl, ?_, ?_, ?_, ?_, ?_, ?_, ?_⟩
  · intro h
    simp [handleHookRequest, hookPayloadValid, h]
  · intro name h hc
    simp [handleHookRequest, hookPayloadValid, h, hc]
  · intro h
    rcases h with h | h <;> simp [handleHookRequest, hookPayloadValid, h]
  · intro hv hf
    subst hf
    simp [handleHookRequest, hv]
  · intro hv hf
    subst hf
    simp [handleHookRequest, hv]
  · intro s hv hl
    simp only [hookPayloadValid, hl, Bool.and_eq_true, decide_eq_true_eq]
      at hv
    exact hv.1.1.2
  · intro k v hk h1 h2 h3 hv
    have hks : ∀ key ∈ optionalStringKeys, key ≠ k :=
      fun key hmem heq => hk (heq ▸ hmem)
    have l1 := jlookup_append_ne ("hook_event_name") k v fields h1
    have l2 := jlookup_append_ne ("session_id") k v fields h2
    have l4 := jlookup_append_ne ("tool_input") k v fields h3
    simp only [hookPayloadValid, toolInputOk] at hv ⊢
    rw [l1, l2, l4, all_isOptionalStringField_append optionalStringKeys
      fields k v hks]
    exact hv

/-- Witness for C7 (amended): a concrete valid payload receives 200. -/
theorem hookIngest_validation_witness :
    hookPayloadValid (.obj c7GoodFields) = true ∧
      handleHookRequest (.ok (.obj c7GoodFields)) false = ⟨200, .okTrue⟩ :=
  ⟨by decide,
    (hookIngest_validation c7GoodFields false).2.2.2.2.1 (by decide) rfl⟩

/-- Helper: a list is a prefix of itself followed by anything. -/
theorem listStartsWith_append_self (p t : List Char) :
    listStartsWith p (p ++ t) = true := by
  induction p with
  | nil => rfl
  | cons c cs ih => simp [listStartsWith, ih]

/-- Helper: the route matcher on the route prefix followed by an
arbitrary remainder. -/
theorem urlMatch_route_append (seg : List Char) :
    urlMatchLogSeg (LOGS_ROUTE ++ seg) =
      if seg.isEmpty then none
      else if seg.all (fun c => !(c == '/')) then some seg
      else none := by
  simp [urlMatchLogSeg, listStartsWith_append_self, List.drop_left]

/-- Helper: the handler on a GET request reduces to the route match. -/
theorem logServerHandle_GET (logExists : List Char → Bool)
    (url : List Char) :
    logServerHandle logExists ("GET") url =
      (match urlMatchLogSeg url with
      | none => ⟨404, some ("text/plain"), none, none⟩
      | some seg =>
        if sessionIdOk seg then
          if logExists seg then
            ⟨200, some ("text/plain; charset=utf-8"),
              some (dispositionFor seg), some (sessionLogPath seg)⟩
          else ⟨404, some ("text/plain"), none, some (sessionLogPath seg)⟩
        else ⟨400, some ("text/plain"), none, none⟩) := by
  rw [logServerHandle]
  rw [if_neg (by decide), if_neg (by decide)]

/-- Helper: a segment containing a character outside the session-id
class fails the session-id pattern. -/
theorem sessionIdOk_false_of_bad (seg : List Char) (c : Char)
    (hc : c ∈ seg) (hbad : sessionIdChar c = false) :
    sessionIdOk seg = false := by
  cases hall : seg.all sessionIdChar with
  | false => simp [sessionIdOk, hall]
  | true => exact absurd (List.all_eq_true.mp hall c hc) (by simp [hbad])

/-- Counterexample to C9 as stated: a sessionId path segment containing
`/` makes the route regex itself fail, so the server responds 404 Not
Found — not the 400 the claim requires — though still without touching
any file. -/
theorem logServer_slash_counterexample :
    (logServerHandle (fun _ => true) ("GET")
        (("/logs/a/b").toList)).status = 404 ∧
      (logServerHandle (fun _ => true) ("GET")
        (("/logs/a/b").toList)).fileTouched = none ∧
      sessionIdOk (("a/b").toList) = false :=
  ⟨by decide, by decide, by decide⟩

/-- C9 (amended): for GET requests under `/logs/`, a segment containing
`/` fails the route match and yields 404 with no file touched; a
non-empty slash-free segment failing `[A-Za-z0-9_-]+` (in particular one
containing `\`, `.` or a NUL byte) yields 400 with no file touched, so no
path traversal outside the session-logs directory is possible; a matching
segment with no log file yields 404; otherwise 200 with
`text/plain; charset=utf-8` and the attachment disposition naming
`<sessionId>.log`. -/
theorem logServer_path_safety :
    ∀ (logExists : List Char → Bool) (seg : List Char),
      ('/' ∈ seg →
        urlMatchLogSeg (LOGS_ROUTE ++ seg) = none ∧
        logServerHandle logExists ("GET") (LOGS_ROUTE ++ seg) =
          ⟨404, some ("text/plain"), none, none⟩) ∧
      (seg ≠ [] → '/' ∉ seg → sessionIdOk seg = false →
        logServerHandle logExists ("GET") (LOGS_ROUTE ++ seg) =
          ⟨400, some ("text/plain"), none, none⟩) ∧
      (sessionIdOk seg = true → logExists seg = false →
        logServerHandle logExists ("GET") (LOGS_ROUTE ++ seg) =
          ⟨404, some ("text/plain"), none, some (sessionLogPath seg)⟩) ∧
      (sessionIdOk seg = true → logExists seg = true →
        logServerHandle logExists ("GET") (LOGS_ROUTE ++ seg) =
          ⟨200, some ("text/plain; charset=utf-8"),
            some (dispositionFor seg), some (sessionLogPath seg)⟩) ∧
      (('\\' ∈ seg ∨ '.' ∈ seg ∨ (Char.ofNat 0) ∈ seg) →
        sessionIdOk seg = false) := by
  intro logExists seg
  refine ⟨?_, ?_, ?_, ?_, ?_⟩
  · intro hmem
    have hne : seg.isEmpty = false := by
      cases seg with
      | nil => cases hmem
      | cons a rest => rfl
    have hall : seg.all (fun c => !(c == '/')) = false := by
      cases hcase : seg.all (fun c => !(c == '/')) with
      | false => rfl
      | true =>
        have := List.all_eq_true.mp hcase '/' hmem
        simp at this
    have hmatch : urlMatchLogSeg (LOGS_ROUTE ++ seg) = none := by
      rw [urlMatch_route_append, hne, hall]
      simp
    exact ⟨hmatch, by rw [logServerHandle_GET, hmatch]⟩
  · intro h1 h2 h3
    have hne : seg.isEmpty = false := by
      cases seg with
      | nil => exact absurd rfl h1
      | cons a rest => rfl
    have hall : seg.all (fun c => !(c == '/')) = true := by
      rw [List.all_eq_true]
      intro c hc
      have : c ≠ '/' := fun heq => h2 (heq ▸ hc)
      simp [this]
    have hmatch : urlMatchLogSeg (LOGS_ROUTE ++ seg) = some seg := by
      rw [urlMatch_route_append, hne, hall]
      simp
    rw [logServerHandle_GET, hmatch]
    simp [h3]
  · intro hok hex
    obtain ⟨hne', hclass⟩ := Bool.and_eq_true .. |>.mp hok
    have hne : seg.isEmpty = false := by
      cases h : seg.isEmpty <;> simp [h] at hne' ⊢
    have hall : seg.all (fun c => !(c == '/')) = true := by
      rw [List.all_eq_true]
      intro c hc
      have hcc := List.all_eq_true.mp hclass c hc
      have : c ≠ '/' := by
        intro heq
        subst heq
        exact absurd hcc (by decide)
      simp [this]
    have hmatch : urlMatchLogSeg (LOGS_ROUTE ++ seg) = some seg := by
      rw [urlMatch_route_append, hne, hall]
      simp
    rw [logServerHandle_GET, hmatch]
    simp [hok, hex]
  · intro hok hex
    obtain ⟨hne', hclass⟩ := Bool.and_eq_true .. |>.mp hok
    have hne : seg.isEmpty = false := by
      cases h : seg.isEmpty <;> simp [h] at hne' ⊢
    have hall : seg.all (fun c => !(c == '/')) = true := by
      rw [List.all_eq_true]
      intro c hc
      have hcc := List.all_eq_true.mp hclass c hc
      have : c ≠ '/' := by
        intro heq
        subst heq
        exact absurd hcc (by decide)
      simp [this]
    have hmatch : urlMatchLogSeg (LOGS_ROUTE ++ seg) = some seg := by
      rw [urlMatch_route_append, hne, hall]
      simp
    rw [logServerHandle_GET, hmatch]
    simp [hok, hex]
  · intro h
    rcases h with h | h | h
    · exact sessionIdOk_false_of_bad seg '\\' h (by decide)
    · exact sessionIdOk_false_of_bad seg '.' h (by decide)
    · exact sessionIdOk_false_of_bad seg (Char.ofNat 0) h (by decide)

/-- Witness for C9 (amended): a well-formed id with an existing log is
served with 200 and the attachment headers. -/
theorem logServer_path_safety_witness :
    sessionIdOk (("abc").toList) = true ∧
      logServerHandle (fun _ => true) ("GET")
          (LOGS_ROUTE ++ ("abc").toList) =
        ⟨200, some ("text/plain; charset=utf-8"),
          some (dispositionFor (("abc").toList)),
          some (sessionLogPath (("abc").toList))⟩ :=
  ⟨by decide,
    (logServer_path_safety (fun _ => true) (("abc").toList)).2.2.2.1
      (by decide) rfl⟩

/-- Helper: `listStartsWith` agrees with the prefix decomposition. -/
theorem listStartsWith_iff (p : List Char) :
    ∀ s, listStartsWith p s = true ↔ ∃ t, s = p ++ t := by
  induction p with
  | nil =>
    intro s
    simp [listStartsWith]
  | cons a ps ih =>
    intro s
    cases s with
    | nil =>
      simp [listStartsWith]
    | cons c cs =>
      simp only [listStartsWith, Bool.and_eq_true, beq_iff_eq, ih cs]
      constructor
      · rintro ⟨rfl, t, rfl⟩
        exact ⟨t, rfl⟩
      · rintro ⟨t, h⟩
        obtain ⟨rfl, rfl⟩ : a = c ∧ cs = ps ++ t := by
          have h1 := congrArg List.head? h
          have h2 := congrArg List.tail h
          simp at h1 h2
          exact ⟨h1.symm, h2⟩
        exact ⟨rfl, t, rfl⟩

/-- Helper: a pattern whose head differs is not a prefix. -/
theorem listStartsWith_head_ne (p : Char) (ps : List Char) (d : Char)
    (z : List Char) (h : p ≠ d) :
    listStartsWith (p :: ps) (d :: z) = false := by
  simp [listStartsWith, h]

/-- Helper: a prefix of a prefix is a prefix. -/
theorem listStartsWith_of_append (p x u : List Char)
    (h : listStartsWith p x = true) :
    listStartsWith p (x ++ u) = true := by
  obtain ⟨t, rfl⟩ := (listStartsWith_iff p x).mp h
  rw [List.append_assoc]
  exact listStartsWith_append_self p (t ++ u)

/-- Helper: a prefix that avoids a separator fits before it. -/
theorem startsWith_fits (pat : List Char) (d : Char) (y : List Char)
    (hd : d ∉ pat) :
    ∀ x, listStartsWith pat (x ++ d :: y) = true →
      listStartsWith pat x = true := by
  induction pat with
  | nil => intro x _; rfl
  | cons p ps ih =>
    intro x h
    cases x with
    | nil =>
      exfalso
      simp only [List.nil_append, listStartsWith, Bool.and_eq_true,
        beq_iff_eq] at h
      exact hd (h.1 ▸ List.mem_cons_self p ps)
    | cons c x' =>
      simp only [List.cons_append, listStartsWith, Bool.and_eq_true,
        beq_iff_eq] at h ⊢
      exact ⟨h.1, ih (fun hm => hd (List.mem_cons_of_mem p hm)) x' h.2⟩

/-- Helper: `splitFirst` decomposes its input. -/
theorem splitFirst_eq (pat : List Char) :
    ∀ s a b, splitFirst pat s = some (a, b) → s = a ++ pat ++ b := by
  intro s
  induction s with
  | nil => intro a b h; cases h
  | cons c rest ih =>
    intro a b h
    by_cases hs : listStartsWith pat (c :: rest) = true
    · rw [splitFirst, if_pos hs] at h
      obtain ⟨t, ht⟩ := (listStartsWith_iff pat (c :: rest)).mp hs
      injection h with h'
      injection h' with h1 h2
      subst h1
      rw [ht] at h2 ⊢
      rw [List.drop_left] at h2
      rw [h2]
      rfl
    · rw [splitFirst, if_neg hs] at h
      cases hsp : splitFirst pat rest with
      | none => rw [hsp] at h; cases h
      | some ab =>
        obtain ⟨a', b'⟩ := ab
        rw [hsp] at h
        injection h with h'
        injection h' with h1 h2
        subst h1; subst h2
        simp [ih a' b' hsp]

/-- Helper: no occurrence in the empty list for a non-empty pattern. -/
theorem occurs_nil_false (pat : List Char) (hp : pat ≠ []) :
    ¬ Occurs pat [] := by
  rintro ⟨a, b, h⟩
  have := congrArg List.length h
  simp [List.length_append] at this
  have hplen : pat.length = 0 := by omega
  exact hp (List.length_eq_zero.mp hplen)

/-- Helper: occurrence in a cons is a prefix match or an occurrence in
the tail. -/
theorem occurs_cons_iff (pat : List Char) (c : Char) (s : List Char) :
    Occurs pat (c :: s) ↔
      listStartsWith pat (c :: s) = true ∨ Occurs pat s := by
  constructor
  · rintro ⟨a, b, h⟩
    cases a with
    | nil =>
      left
      rw [(listStartsWith_iff pat (c :: s))]
      exact ⟨b, by simpa using h⟩
    | cons a0 a' =>
      right
      injection h with h1 h2
      exact ⟨a', b, h2⟩
  · rintro (h | ⟨a, b, h⟩)
    · obtain ⟨t, ht⟩ := (listStartsWith_iff pat (c :: s)).mp h
      exact ⟨[], t, by simpa using ht⟩
    · exact ⟨c :: a, b, by simp [h]⟩

/-- Helper: an occurrence in the tail persists in the cons. -/
theorem occurs_cons_of (pat : List Char) (c : Char) (s : List Char)
    (h : Occurs pat s) : Occurs pat (c :: s) :=
  (occurs_cons_iff pat c s).mpr (Or.inr h)

/-- Helper: an occurrence in the right part of an append. -/
theorem occurs_append_right (pat a b : List Char) (h : Occurs pat b) :
    Occurs pat (a ++ b) := by
  obtain ⟨x, y, rfl⟩ := h
  exact ⟨a ++ x, y, by simp⟩

/-- Helper: an occurrence in the left part of an append. -/
theorem occurs_append_left (pat a b : List Char) (h : Occurs pat a) :
    Occurs pat (a ++ b) := by
  obtain ⟨x, y, rfl⟩ := h
  exact ⟨x, y ++ b, by simp⟩

/-- Helper: a prefix match is an occurrence. -/
theorem occurs_of_startsWith (pat s : List Char)
    (h : listStartsWith pat s = true) : Occurs pat s := by
  obtain ⟨t, rfl⟩ := (listStartsWith_iff pat s).mp h
  exact ⟨[], t, rfl⟩

/-- Helper: an occurrence across a separator the pattern avoids lies on
one side of it. -/
theorem occurs_append_avoid (pat : List Char) (d : Char) (z : List Char)
    (hd : d ∉ pat) :
    ∀ xs, Occurs pat (xs ++ d :: z) → Occurs pat xs ∨ Occurs pat z := by
  intro xs
  induction xs with
  | nil =>
    intro h
    rw [List.nil_append, occurs_cons_iff] at h
    rcases h with h | h
    · cases pat with
      | nil => exact Or.inr ⟨[], z, by simp⟩
      | cons p ps =>
        exfalso
        simp only [listStartsWith, Bool.and_eq_true, beq_iff_eq] at h
        exact hd (h.1 ▸ List.mem_cons_self p ps)
    · exact Or.inr h
  | cons c xs' ih =>
    intro h
    rw [List.cons_append, occurs_cons_iff] at h
    rcases h with h | h
    · left
      exact occurs_of_startsWith pat (c :: xs')
        (startsWith_fits pat d z hd (c :: xs') h)
    · rcases ih h with h' | h'
      · exact Or.inl (occurs_cons_of pat c xs' h')
      · exact Or.inr h'

/-- Helper: `splitFirst` failing means no occurrence. -/
theorem splitFirst_none_not_occurs (pat : List Char) (hp : pat ≠ []) :
    ∀ s, splitFirst pat s = none → ¬ Occurs pat s := by
  intro s
  induction s with
  | nil => intro _; exact occurs_nil_false pat hp
  | cons c rest ih =>
    intro h hocc
    by_cases hs : listStartsWith pat (c :: rest) = true
    · rw [splitFirst, if_pos hs] at h
      cases h
    · rw [splitFirst, if_neg hs] at h
      cases hsp : splitFirst pat rest with
      | some ab => rw [hsp] at h; cases h
      | none =>
        rcases (occurs_cons_iff pat c rest).mp hocc with h' | h'
        · exact hs h'
        · exact ih hsp h'

/-- Helper: `splitFirst` finds the first occurrence — none occurs in the
prefix it returns. -/
theorem splitFirst_pre_not_occurs (pat : List Char) (hp : pat ≠ []) :
    ∀ s a b, splitFirst pat s = some (a, b) → ¬ Occurs pat a := by
  intro s
  induction s with
  | nil => intro a b h; cases h
  | cons c rest ih =>
    intro a b h
    by_cases hs : listStartsWith pat (c :: rest) = true
    · rw [splitFirst, if_pos hs] at h
      injection h with h'
      injection h' with h1 _
      subst h1
      exact occurs_nil_false pat hp
    · rw [splitFirst, if_neg hs] at h
      cases hsp : splitFirst pat rest with
      | none => rw [hsp] at h; cases h
      | some ab =>
        obtain ⟨a', b'⟩ := ab
        rw [hsp] at h
        injection h with h'
        injection h' with h1 h2
        subst h1; subst h2
        intro hocc
        rcases (occurs_cons_iff pat c a').mp hocc with h' | h'
        · have hrest := splitFirst_eq pat rest a' b' hsp
          have : listStartsWith pat ((c :: a') ++ (pat ++ b')) = true :=
            listStartsWith_of_append pat (c :: a') (pat ++ b') h'
          rw [show (c :: a') ++ (pat ++ b') = c :: rest by
            simp [hrest]] at this
          exact hs this
        · exact ih a' b' hsp h'

/-- Helper: `containsPat` decides `Occurs` for non-empty patterns. -/
theorem containsPat_false_iff (pat : List Char) (hp : pat ≠ [])
    (s : List Char) : containsPat pat s = false ↔ ¬ Occurs pat s := by
  constructor
  · intro h
    cases hsp : splitFirst pat s with
    | none => exact splitFirst_none_not_occurs pat hp s hsp
    | some ab => simp [containsPat, hsp] at h
  · intro h
    cases hsp : splitFirst pat s with
    | none => simp [containsPat, hsp]
    | some ab =>
      obtain ⟨a, b⟩ := ab
      exact absurd ⟨a, b, splitFirst_eq pat s a b hsp⟩ h

/-- Helper: an opening delimiter is never empty. -/
theorem openTag_ne_nil (tag : List Char) : openTag tag ≠ [] := by
  simp [openTag]

/-- Helper: the boilerplate literal is not empty. -/
theorem BOILER_ne_nil : BOILER ≠ [] := by decide

/-- Helper: the boilerplate literal contains no line terminator. -/
theorem BOILER_term_free : ∀ c ∈ BOILER, isLineTerm c = false := by decide

/-- Helper: the closed-tag remover ignores a string without the opening
delimiter, at any fuel. -/
theorem removeClosedTagFuel_no_open (tag s : List Char)
    (h : splitFirst (openTag tag) s = none) :
    ∀ fuel, removeClosedTagFuel tag fuel s = s := by
  intro fuel
  cases fuel with
  | zero => rfl
  | succ n => simp [removeClosedTagFuel, h]

/-- Helper: the closed-tag remover ignores a string without the opening
delimiter. -/
theorem removeClosedTag_id (tag s : List Char)
    (h : ¬ Occurs (openTag tag) s) : removeClosedTag tag s = s := by
  cases hsp : splitFirst (openTag tag) s with
  | none => exact removeClosedTagFuel_no_open tag s hsp s.length
  | some ab =>
    obtain ⟨a, b⟩ := ab
    exact absurd ⟨a, b, splitFirst_eq (openTag tag) s a b hsp⟩ h

/-- Helper: the closed-tag pass is the identity on a string free of every
opening delimiter. -/
theorem foldClosed_id (tags : List (List Char)) (s : List Char)
    (h : ∀ t ∈ tags, ¬ Occurs (openTag t) s) :
    tags.foldl (fun acc t => removeClosedTag t acc) s = s := by
  induction tags with
  | nil => rfl
  | cons t ts ih =>
    simp only [List.foldl_cons]
    rw [removeClosedTag_id t s (h t (by simp))]
    exact ih fun t' ht' => h t' (by simp [ht'])

/-- Helper: the unclosed-tag remover ignores a string without the opening
delimiter. -/
theorem removeUnclosedTag_id (tag s : List Char)
    (h : ¬ Occurs (openTag tag) s) : removeUnclosedTag tag s = s := by
  cases hsp : splitFirst (openTag tag) s with
  | none => simp [removeUnclosedTag, hsp]
  | some ab =>
    obtain ⟨a, b⟩ := ab
    exact absurd ⟨a, b, splitFirst_eq (openTag tag) s a b hsp⟩ h

/-- Helper: the unclosed-tag remover leaves no opening delimiter of its
tag behind. -/
theorem removeUnclosedTag_not_occurs (tag s : List Char) :
    ¬ Occurs (openTag tag) (removeUnclosedTag tag s) := by
  cases hsp : splitFirst (openTag tag) s with
  | none =>
    rw [show removeUnclosedTag tag s = s by simp [removeUnclosedTag, hsp]]
    exact splitFirst_none_not_occurs (openTag tag) (openTag_ne_nil tag) s hsp
  | some ab =>
    obtain ⟨a, b⟩ := ab
    rw [show removeUnclosedTag tag s = a by simp [removeUnclosedTag, hsp]]
    exact splitFirst_pre_not_occurs (openTag tag) (openTag_ne_nil tag) s a b
      hsp

/-- Helper: the unclosed-tag remover returns a prefix of its input. -/
theorem removeUnclosedTag_prefix (tag s : List Char) :
    ∃ u, removeUnclosedTag tag s ++ u = s := by
  cases hsp : splitFirst (openTag tag) s with
  | none => exact ⟨[], by simp [removeUnclosedTag, hsp]⟩
  | some ab =>
    obtain ⟨a, b⟩ := ab
    refine ⟨openTag tag ++ b, ?_⟩
    rw [show removeUnclosedTag tag s = a by simp [removeUnclosedTag, hsp]]
    rw [← List.append_assoc]
    exact (splitFirst_eq (openTag tag) s a b hsp).symm

/-- Helper: the unclosed-tag pass returns a prefix of its input. -/
theorem foldUnclosed_prefix (tags : List (List Char)) :
    ∀ s, ∃ u,
      tags.foldl (fun acc t => removeUnclosedTag t acc) s ++ u = s := by
  induction tags with
  | nil => intro s; exact ⟨[], by simp⟩
  | cons t ts ih =>
    intro s
    simp only [List.foldl_cons]
    obtain ⟨u1, hu1⟩ := ih (removeUnclosedTag t s)
    obtain ⟨u2, hu2⟩ := removeUnclosedTag_prefix t s
    exact ⟨u1 ++ u2, by rw [← List.append_assoc, hu1, hu2]⟩

/-- Helper: the unclosed-tag pass is the identity on a string free of
every opening delimiter. -/
theorem foldUnclosed_id (tags : List (List Char)) (s : List Char)
    (h : ∀ t ∈ tags, ¬ Occurs (openTag t) s) :
    tags.foldl (fun acc t => removeUnclosedTag t acc) s = s := by
  induction tags with
  | nil => rfl
  | cons t ts ih =>
    simp only [List.foldl_cons]
    rw [removeUnclosedTag_id t s (h t (by simp))]
    exact ih fun t' ht' => h t' (by simp [ht'])

/-- Helper: after the unclosed-tag pass, no opening delimiter of any of
the processed tags occurs any more. -/
theorem foldUnclosed_not_occurs (tags : List (List Char)) :
    ∀ s, ∀ t ∈ tags,
      ¬ Occurs (openTag t)
        (tags.foldl (fun acc t => removeUnclosedTag t acc) s) := by
  induction tags with
  | nil => intro s t ht; cases ht
  | cons t0 ts ih =>
    intro s t ht
    simp only [List.foldl_cons]
    rcases List.mem_cons.mp ht with rfl | ht'
    · have h0 := removeUnclosedTag_not_occurs t s
      obtain ⟨u, hu⟩ := foldUnclosed_prefix ts (removeUnclosedTag t s)
      intro hocc
      exact h0 (hu ▸ occurs_append_left (openTag t) _ u hocc)
    · exact ih (removeUnclosedTag t0 s) t ht'

/-- Helper: the boilerplate remover maps the empty list to itself at any
fuel. -/
theorem removeBoilerplateFuel_nil :
    ∀ fuel, removeBoilerplateFuel fuel [] = [] := by
  intro fuel
  cases fuel with
  | zero => rfl
  | succ n => rfl

/-- Helper: the boilerplate remover ignores a string without the
literal, at any fuel. -/
theorem removeBoilerplateFuel_no (s : List Char)
    (h : splitFirst BOILER s = none) :
    ∀ fuel, removeBoilerplateFuel fuel s = s := by
  intro fuel
  cases fuel with
  | zero => rfl
  | succ n => simp [removeBoilerplateFuel, h]

/-- Helper: the boilerplate remover ignores a string without the
literal. -/
theorem removeBoilerplate_id (s : List Char) (h : ¬ Occurs BOILER s) :
    removeBoilerplate s = s := by
  cases hsp : splitFirst BOILER s with
  | none => exact removeBoilerplateFuel_no s hsp s.length
  | some ab =>
    obtain ⟨a, b⟩ := ab
    exact absurd ⟨a, b, splitFirst_eq BOILER s a b hsp⟩ h

/-- Helper: `splitFirst` on a cons that is not a prefix match. -/
theorem splitFirst_cons_not_start (pat : List Char) (c : Char)
    (rest : List Char) (h : listStartsWith pat (c :: rest) = false) :
    splitFirst pat (c :: rest) =
      (splitFirst pat rest).map (fun ab => (c :: ab.1, ab.2)) := by
  rw [splitFirst, if_neg (by simp [h])]
  cases splitFirst pat rest with
  | none => rfl
  | some ab => obtain ⟨a, b⟩ := ab; rfl

/-- Helper: the boilerplate remover keeps the head of a string that does
not start with the literal. -/
theorem removeBoilerplateFuel_head (d : Char) (z : List Char)
    (hd : listStartsWith BOILER (d :: z) = false) :
    ∀ fuel, ∃ w, removeBoilerplateFuel fuel (d :: z) = d :: w := by
  intro fuel
  cases fuel with
  | zero => exact ⟨z, rfl⟩
  | succ n =>
    rw [removeBoilerplateFuel, splitFirst_cons_not_start BOILER d z hd]
    cases splitFirst BOILER z with
    | none => exact ⟨z, rfl⟩
    | some ab =>
      obtain ⟨a, b⟩ := ab
      exact ⟨a ++ removeBoilerplateFuel n
        (b.dropWhile (fun c => !(isLineTerm c))), by simp⟩

/-- Helper: a line terminator never starts the boilerplate literal. -/
theorem boiler_not_start_of_lineTerm (d : Char) (z : List Char)
    (hd : isLineTerm d = true) :
    listStartsWith BOILER (d :: z) = false := by
  have hdr : ('R' : Char) ≠ d := by
    intro h
    rw [← h] at hd
    exact absurd hd (by decide)
  have hb : BOILER =
      'R' :: ("ead the output file to retrieve the result:").toList := by
    decide
  rw [hb]
  exact listStartsWith_head_ne 'R' _ d z hdr

/-- Helper: the head surviving the line scan is a line terminator. -/
theorem dropWhile_head_lineTerm (l : List Char) (d : Char) (z : List Char)
    (h : l.dropWhile (fun c => !(isLineTerm c)) = d :: z) :
    isLineTerm d = true := by
  induction l with
  | nil => cases h
  | cons c rest ih =>
    rw [List.dropWhile_cons] at h
    by_cases hc : isLineTerm c = true
    · rw [if_neg (by simp [hc])] at h
      injection h with h1 _
      rw [← h1]; exact hc
    · rw [if_pos (by simp [Bool.not_eq_true] at hc ⊢; exact hc)] at h
      exact ih h

/-- Helper: any occurrence of a terminator-free pattern surviving the
boilerplate remover already occurred in the input. -/
theorem occurs_removeBoilerplateFuel (pat : List Char) (_hp : pat ≠ [])
    (hterm : ∀ c ∈ pat, isLineTerm c = false) :
    ∀ fuel s, Occurs pat (removeBoilerplateFuel fuel s) → Occurs pat s := by
  intro fuel
  induction fuel with
  | zero => intro s h; exact h
  | succ n ih =>
    intro s h
    cases hsp : splitFirst BOILER s with
    | none => rw [removeBoilerplateFuel, hsp] at h; exact h
    | some ab =>
      obtain ⟨pre, rest⟩ := ab
      simp only [removeBoilerplateFuel, hsp] at h
      have hs := splitFirst_eq BOILER s pre rest hsp
      have hsuffix := List.takeWhile_append_dropWhile
        (p := fun c => !(isLineTerm c)) (l := rest)
      cases hr : rest.dropWhile (fun c => !(isLineTerm c)) with
      | nil =>
        rw [hr, removeBoilerplateFuel_nil n, List.append_nil] at h
        rw [hs, List.append_assoc]
        exact occurs_append_left pat pre _ h
      | cons d z =>
        have hdterm : isLineTerm d = true :=
          dropWhile_head_lineTerm rest d z hr
        have hdnot : d ∉ pat := fun hmem => by
          rw [hterm d hmem] at hdterm; cases hdterm
        obtain ⟨w, hw⟩ := removeBoilerplateFuel_head d z
          (boiler_not_start_of_lineTerm d z hdterm) n
        rw [hr, hw] at h
        rcases occurs_append_avoid pat d w hdnot pre h with h' | h'
        · rw [hs, List.append_assoc]
          exact occurs_append_left pat pre _ h'
        · have h2 : Occurs pat (d :: w) := occurs_cons_of pat d w h'
          rw [← hw] at h2
          have h3 := ih (d :: z) h2
          have h4 : Occurs pat rest := by
            rw [← hsuffix, hr]
            exact occurs_append_right pat _ _ h3
          rw [hs, List.append_assoc]
          exact occurs_append_right pat pre _
            (occurs_append_right pat BOILER rest h4)

/-- Helper: with adequate fuel the boilerplate remover leaves no
occurrence of the literal behind. -/
theorem removeBoilerplateFuel_no_boiler :
    ∀ fuel s, s.length ≤ fuel →
      ¬ Occurs BOILER (removeBoilerplateFuel fuel s) := by
  intro fuel
  induction fuel with
  | zero =>
    intro s hlen
    have : s = [] := List.length_eq_zero.mp (Nat.le_zero.mp hlen)
    subst this
    exact occurs_nil_false BOILER BOILER_ne_nil
  | succ n ih =>
    intro s hlen
    cases hsp : splitFirst BOILER s with
    | none =>
      rw [removeBoilerplateFuel, hsp]
      exact splitFirst_none_not_occurs BOILER BOILER_ne_nil s hsp
    | some ab =>
      obtain ⟨pre, rest⟩ := ab
      simp only [removeBoilerplateFuel, hsp]
      have hs := splitFirst_eq BOILER s pre rest hsp
      have hpre := splitFirst_pre_not_occurs BOILER BOILER_ne_nil s pre rest
        hsp
      have hsuffix := List.takeWhile_append_dropWhile
        (p := fun c => !(isLineTerm c)) (l := rest)
      have hlen' : (rest.dropWhile (fun c => !(isLineTerm c))).length ≤ n
          := by
        have h1 : (rest.takeWhile (fun c => !(isLineTerm c))).length +
            (rest.dropWhile (fun c => !(isLineTerm c))).length =
            rest.length := by
          rw [← List.length_append, hsuffix]
        have h2 : s.length =
            pre.length + (BOILER.length + rest.length) := by
          rw [hs]; simp [List.length_append]
        have h3 : 1 ≤ BOILER.length := by decide
        omega
      cases hr : rest.dropWhile (fun c => !(isLineTerm c)) with
      | nil =>
        rw [removeBoilerplateFuel_nil n, List.append_nil]
        exact hpre
      | cons d z =>
        have hdterm : isLineTerm d = true :=
          dropWhile_head_lineTerm rest d z hr
        obtain ⟨w, hw⟩ := removeBoilerplateFuel_head d z
          (boiler_not_start_of_lineTerm d z hdterm) n
        rw [hw]
        intro hocc
        have hdnot : d ∉ BOILER := fun hm => by
          rw [BOILER_term_free d hm] at hdterm; cases hdterm
        rcases occurs_append_avoid BOILER d w hdnot pre hocc with h' | h'
        · exact hpre h'
        · have h2 : Occurs BOILER (d :: w) := occurs_cons_of BOILER d w h'
          rw [← hw] at h2
          exact ih (d :: z) (hr ▸ hlen') h2

/-- Helper: the boilerplate remover leaves no occurrence of the literal
behind. -/
theorem removeBoilerplate_no_boiler (s : List Char) :
    ¬ Occurs BOILER (removeBoilerplate s) :=
  removeBoilerplateFuel_no_boiler s.length s le_rfl

/-- Helper: any occurrence of a terminator-free pattern surviving the
boilerplate remover already occurred in the input. -/
theorem occurs_removeBoilerplate (pat : List Char) (hp : pat ≠ [])
    (hterm : ∀ c ∈ pat, isLineTerm c = false) (s : List Char)
    (h : Occurs pat (removeBoilerplate s)) : Occurs pat s :=
  occurs_removeBoilerplateFuel pat hp hterm s.length s h

/-- Helper: an occurrence pins a length bound. -/
theorem occurs_length (pat s : List Char) (h : Occurs pat s) :
    pat.length ≤ s.length := by
  obtain ⟨a, b, rfl⟩ := h
  simp [List.length_append]
  omega

/-- Helper: a newline-free non-empty pattern never occurs in a run of
newlines. -/
theorem occurs_not_in_replicate (pat : List Char) (hp : pat ≠ [])
    (hnl : '\n' ∉ pat) : ∀ k, ¬ Occurs pat (List.replicate k '\n') := by
  intro k
  induction k with
  | zero => exact occurs_nil_false pat hp
  | succ n ih =>
    rw [List.replicate_succ]
    intro h
    rcases (occurs_cons_iff pat '\n' _).mp h with h' | h'
    · cases pat with
      | nil => exact hp rfl
      | cons p ps =>
        simp only [listStartsWith, Bool.and_eq_true, beq_iff_eq] at h'
        exact hnl (by rw [← h'.1]; exact List.mem_cons_self p ps)
    · exact ih h'

/-- Helper: an occurrence of a newline-free non-empty pattern after a run
of newlines lies past the run. -/
theorem occurs_drop_replicate (pat : List Char) (hp : pat ≠ [])
    (hnl : '\n' ∉ pat) :
    ∀ k z, Occurs pat (List.replicate k '\n' ++ z) → Occurs pat z := by
  intro k
  induction k with
  | zero => intro z h; simpa using h
  | succ n ih =>
    intro z h
    rw [List.replicate_succ, List.cons_append] at h
    rcases (occurs_cons_iff pat '\n' _).mp h with h' | h'
    · cases pat with
      | nil => exact absurd rfl hp
      | cons p ps =>
        simp only [listStartsWith, Bool.and_eq_true, beq_iff_eq] at h'
        exact absurd (by rw [← h'.1]; exact List.mem_cons_self p ps) hnl
    · exact ih z h'

/-- Helper: with at least one pending newline the collapser's output
starts with a newline. -/
theorem collapseGo_pos_head :
    ∀ (s : List Char) (p : Nat), 1 ≤ p →
      ∃ w, collapseGo p s = '\n' :: w := by
  intro s
  induction s with
  | nil =>
    intro p hp
    refine ⟨List.replicate (min p 2 - 1) '\n', ?_⟩
    have hmin : min p 2 = (min p 2 - 1) + 1 := by omega
    rw [show collapseGo p [] = List.replicate (min p 2) '\n' from rfl,
      hmin, List.replicate_succ]
    simp
  | cons c rest ih =>
    intro p hp
    by_cases hc : c = '\n'
    · rw [show collapseGo p (c :: rest) = collapseGo (p + 1) rest from by
        simp [collapseGo, hc]]
      exact ih (p + 1) (by omega)
    · rw [show collapseGo p (c :: rest) =
        List.replicate (min p 2) '\n' ++ c :: collapseGo 0 rest from by
        simp [collapseGo, hc]]
      refine ⟨List.replicate (min p 2 - 1) '\n' ++ c :: collapseGo 0 rest,
        ?_⟩
      have hmin : min p 2 = (min p 2 - 1) + 1 := by omega
      rw [hmin, List.replicate_succ]
      rfl

/-- Helper: a newline-free prefix of the collapser's output is a prefix
of its input. -/
theorem pfx_collapseGo :
    ∀ (z q : List Char), '\n' ∉ q →
      listStartsWith q (collapseGo 0 z) = true →
      listStartsWith q z = true := by
  intro z
  induction z with
  | nil =>
    intro q hq h
    simpa [collapseGo] using h
  | cons c rest ih =>
    intro q hq h
    by_cases hc : c = '\n'
    · subst hc
      rw [show collapseGo 0 ('\n' :: rest) = collapseGo 1 rest from by
        simp [collapseGo]] at h
      cases q with
      | nil => rfl
      | cons qc qs =>
        obtain ⟨w, hw⟩ := collapseGo_pos_head rest 1 le_rfl
        rw [hw] at h
        simp only [listStartsWith, Bool.and_eq_true, beq_iff_eq] at h
        exact absurd (by rw [← h.1]; exact List.mem_cons_self qc qs) hq
    · rw [show collapseGo 0 (c :: rest) = c :: collapseGo 0 rest from by
        simp [collapseGo, hc]] at h
      cases q with
      | nil => rfl
      | cons qc qs =>
        simp only [listStartsWith, Bool.and_eq_true, beq_iff_eq] at h ⊢
        exact ⟨h.1, ih qs (fun hm => hq (List.mem_cons_of_mem qc hm)) h.2⟩

/-- Helper: an occurrence of a newline-free non-empty pattern in the
collapser's output already occurred in its input. -/
theorem occurs_collapseGo (pat : List Char) (hp : pat ≠ [])
    (hnl : '\n' ∉ pat) :
    ∀ (s : List Char) (p : Nat),
      Occurs pat (collapseGo p s) → Occurs pat s := by
  intro s
  induction s with
  | nil =>
    intro p h
    rw [show collapseGo p [] = List.replicate (min p 2) '\n' from rfl] at h
    exact (occurs_not_in_replicate pat hp hnl _ h).elim
  | cons c rest ih =>
    intro p h
    by_cases hc : c = '\n'
    · subst hc
      rw [show collapseGo p ('\n' :: rest) = collapseGo (p + 1) rest from by
        simp [collapseGo]] at h
      exact occurs_cons_of pat '\n' rest (ih (p + 1) h)
    · rw [show collapseGo p (c :: rest) =
        List.replicate (min p 2) '\n' ++ c :: collapseGo 0 rest from by
        simp [collapseGo, hc]] at h
      have h2 : Occurs pat (c :: collapseGo 0 rest) :=
        occurs_drop_replicate pat hp hnl _ _ h
      rcases (occurs_cons_iff pat c _).mp h2 with h' | h'
      · cases pat with
        | nil => exact absurd rfl hp
        | cons pc ps =>
          simp only [listStartsWith, Bool.and_eq_true, beq_iff_eq] at h'
          obtain ⟨rfl, hps⟩ := h'
          have hq := pfx_collapseGo rest ps
            (fun hm => hnl (List.mem_cons_of_mem pc hm)) hps
          exact occurs_of_startsWith _ (pc :: rest)
            (by simp [listStartsWith, hq])
      · exact occurs_cons_of pat c rest (ih 0 h')

/-- Helper: a run of at least three newlines exhibits the triple. -/
theorem triple_prefix_replicate (p : Nat) (hp : 3 ≤ p) (z : List Char) :
    Occurs ['\n', '\n', '\n'] (List.replicate p '\n' ++ z) := by
  apply occurs_of_startsWith
  have h3 : List.replicate p '\n' =
      ['\n', '\n', '\n'] ++ List.replicate (p - 3) '\n' := by
    have hp3 : p = 3 + (p - 3) := by omega
    conv_lhs => rw [hp3]
    rw [List.replicate_add]
    rfl
  rw [h3, List.append_assoc]
  exact listStartsWith_append_self _ _

/-- Helper: the collapser's output never contains three consecutive
newlines. -/
theorem no_triple_collapseGo :
    ∀ (s : List Char) (p : Nat),
      ¬ Occurs ['\n', '\n', '\n'] (collapseGo p s) := by
  intro s
  induction s with
  | nil =>
    intro p h
    rw [show collapseGo p [] = List.replicate (min p 2) '\n' from rfl] at h
    have := occurs_length _ _ h
    simp [List.length_replicate] at this
  | cons c rest ih =>
    intro p h
    by_cases hc : c = '\n'
    · subst hc
      rw [show collapseGo p ('\n' :: rest) = collapseGo (p + 1) rest from by
        simp [collapseGo]] at h
      exact ih (p + 1) h
    · rw [show collapseGo p (c :: rest) =
        List.replicate (min p 2) '\n' ++ c :: collapseGo 0 rest from by
        simp [collapseGo, hc]] at h
      rcases occurs_append_avoid ['\n', '\n', '\n'] c (collapseGo 0 rest)
        (by simp [hc]) (List.replicate (min p 2) '\n') h with h' | h'
      · have := occurs_length _ _ h'
        simp [List.length_replicate] at this
      · exact ih 0 h'

/-- Helper: the collapser is the identity when no triple newline
occurs (pending run included). -/
theorem collapseGo_id :
    ∀ (s : List Char) (p : Nat),
      ¬ Occurs ['\n', '\n', '\n'] (List.replicate p '\n' ++ s) →
      collapseGo p s = List.replicate p '\n' ++ s := by
  intro s
  induction s with
  | nil =>
    intro p h
    have hp2 : p ≤ 2 := by
      by_contra hgt
      push_neg at hgt
      exact h (triple_prefix_replicate p (by omega) [])
    rw [show collapseGo p [] = List.replicate (min p 2) '\n' from rfl,
      min_eq_left hp2, List.append_nil]
  | cons c rest ih =>
    intro p h
    by_cases hc : c = '\n'
    · subst hc
      rw [show collapseGo p ('\n' :: rest) = collapseGo (p + 1) rest from by
        simp [collapseGo]]
      have heq : List.replicate (p + 1) '\n' ++ rest =
          List.replicate p '\n' ++ '\n' :: rest := by
        rw [List.replicate_succ', List.append_assoc]
        rfl
      rw [ih (p + 1) (by rw [heq]; exact h), heq]
    · rw [show collapseGo p (c :: rest) =
        List.replicate (min p 2) '\n' ++ c :: collapseGo 0 rest from by
        simp [collapseGo, hc]]
      have hp2 : p ≤ 2 := by
        by_contra hgt
        push_neg at hgt
        exact h (triple_prefix_replicate p (by omega) (c :: rest))
      have hrest : ¬ Occurs ['\n', '\n', '\n']
          (List.replicate 0 '\n' ++ rest) := by
        intro hocc
        exact h (occurs_append_right _ _ _
          (occurs_cons_of _ c rest (by simpa using hocc)))
      rw [min_eq_left hp2, ih 0 hrest]
      simp

/-- Helper: the newline collapser is the identity without a triple
newline. -/
theorem collapseNewlines_id (s : List Char)
    (h : ¬ Occurs ['\n', '\n', '\n'] s) : collapseNewlines s = s := by
  have := collapseGo_id s 0 (by simpa using h)
  simpa [collapseNewlines] using this

/-- Helper: occurrences of newline-free patterns survive the collapser
only from the input. -/
theorem occurs_collapseNewlines (pat : List Char) (hp : pat ≠ [])
    (hnl : '\n' ∉ pat) (s : List Char)
    (h : Occurs pat (collapseNewlines s)) : Occurs pat s :=
  occurs_collapseGo pat hp hnl s 0 h

/-- Helper: the collapser's output never contains a triple newline. -/
theorem no_triple_collapseNewlines (s : List Char) :
    ¬ Occurs ['\n', '\n', '\n'] (collapseNewlines s) :=
  no_triple_collapseGo s 0

/-- Helper: dropping a satisfied prefix twice is dropping it once. -/
theorem dropWhile_idem (p : Char → Bool) :
    ∀ l : List Char,
      List.dropWhile p (List.dropWhile p l) = List.dropWhile p l := by
  intro l
  induction l with
  | nil => rfl
  | cons c rest ih =>
    rw [List.dropWhile_cons]
    by_cases hc : p c = true
    · rw [if_pos hc]; exact ih
    · rw [if_neg hc, List.dropWhile_cons, if_neg hc]

/-- Helper: `dropWhile` keeps a list whose head fails the predicate. -/
theorem dropWhile_eq_self_of_head (p : Char → Bool) (l : List Char)
    (h : ∀ c w, l = c :: w → p c = false) : List.dropWhile p l = l := by
  cases l with
  | nil => rfl
  | cons c w => rw [List.dropWhile_cons, if_neg (by simp [h c w rfl])]

/-- Helper: the head surviving `dropWhile` fails the predicate. -/
theorem dropWhile_head_false (p : Char → Bool) :
    ∀ (l : List Char) c w, List.dropWhile p l = c :: w → p c = false := by
  intro l
  induction l with
  | nil => intro c w h; cases h
  | cons a rest ih =>
    intro c w h
    rw [List.dropWhile_cons] at h
    by_cases ha : p a = true
    · rw [if_pos ha] at h; exact ih c w h
    · rw [if_neg ha] at h
      injection h with h1 _
      simp [Bool.not_eq_true] at ha
      rw [← h1]; exact ha

/-- Helper: the left trim produces a suffix. -/
theorem trimLeft_suffix (l : List Char) : ∃ u, u ++ trimLeft l = l := by
  refine ⟨l.takeWhile isJSWhitespace, ?_⟩
  show l.takeWhile isJSWhitespace ++ l.dropWhile isJSWhitespace = l
  exact List.takeWhile_append_dropWhile isJSWhitespace l

/-- Helper: the right trim produces a prefix. -/
theorem trimRight_prefix (l : List Char) : ∃ u, trimRight l ++ u = l := by
  refine ⟨(l.reverse.takeWhile isJSWhitespace).reverse, ?_⟩
  rw [trimRight, ← List.reverse_append]
  rw [List.takeWhile_append_dropWhile, List.reverse_reverse]

/-- Helper: the right trim is idempotent. -/
theorem trimRight_idem (l : List Char) :
    trimRight (trimRight l) = trimRight l := by
  rw [trimRight, trimRight, List.reverse_reverse, dropWhile_idem]

/-- Helper: `trim` is idempotent. -/
theorem trimStr_idem (l : List Char) : trimStr (trimStr l) = trimStr l := by
  rw [trimStr, trimStr]
  have hhead : ∀ c w, trimRight (trimLeft l) = c :: w →
      isJSWhitespace c = false := by
    intro c w h
    obtain ⟨u, hu⟩ := trimRight_prefix (trimLeft l)
    have hy : trimLeft l = c :: (w ++ u) := by
      rw [← hu, h]; simp
    exact dropWhile_head_false isJSWhitespace l c (w ++ u) hy
  rw [show trimLeft (trimRight (trimLeft l)) = trimRight (trimLeft l) from
    dropWhile_eq_self_of_head isJSWhitespace _ hhead]
  exact trimRight_idem _

/-- Helper: `trim` returns a contiguous substring. -/
theorem trimStr_substring (l : List Char) :
    ∃ a b, a ++ trimStr l ++ b = l := by
  obtain ⟨a, ha⟩ := trimLeft_suffix l
  obtain ⟨b, hb⟩ := trimRight_prefix (trimLeft l)
  refine ⟨a, b, ?_⟩
  show a ++ trimRight (trimLeft l) ++ b = l
  rw [List.append_assoc, hb, ha]

/-- Helper: occurrences in the trimmed string occurred in the input. -/
theorem occurs_trimStr (pat l : List Char)
    (h : Occurs pat (trimStr l)) : Occurs pat l := by
  obtain ⟨a, b, hab⟩ := trimStr_substring l
  rw [← hab]
  exact occurs_append_left pat (a ++ trimStr l) b
    (occurs_append_right pat a (trimStr l) h)

/-- Helper: every opening delimiter of a system tag is free of line
terminators. -/
theorem openTag_term_free :
    ∀ t ∈ SYSTEM_TAGS, ∀ c ∈ openTag t, isLineTerm c = false := by decide

/-- Helper: no opening delimiter of a system tag contains a newline. -/
theorem openTag_nl_free :
    ∀ t ∈ SYSTEM_TAGS, '\n' ∉ openTag t := by
  intro t ht hm
  have h := openTag_term_free t ht '\n' hm
  rw [show isLineTerm '\n' = true from by decide] at h
  cases h

/-- Helper: no system-tag opening delimiter survives the stripper. -/
theorem strip_tag_free (x : List Char) :
    ∀ t ∈ SYSTEM_TAGS, ¬ Occurs (openTag t) (stripSystemTags x) := by
  intro t ht
  by_cases hx : x = []
  · subst hx
    exact occurs_nil_false _ (openTag_ne_nil t)
  · simp only [stripSystemTags]
    rw [if_neg hx]
    intro hocc
    have h1 := occurs_trimStr _ _ hocc
    have h2 := occurs_collapseNewlines _ (openTag_ne_nil t)
      (openTag_nl_free t ht) _ h1
    have h3 := occurs_removeBoilerplate _ (openTag_ne_nil t)
      (openTag_term_free t ht) _ h2
    exact foldUnclosed_not_occurs SYSTEM_TAGS _ t ht h3

/-- Helper: no boilerplate literal survives the stripper. -/
theorem strip_no_boiler (x : List Char) :
    ¬ Occurs BOILER (stripSystemTags x) := by
  by_cases hx : x = []
  · subst hx
    exact occurs_nil_false _ BOILER_ne_nil
  · simp only [stripSystemTags]
    rw [if_neg hx]
    intro hocc
    have h1 := occurs_trimStr _ _ hocc
    have hboilnl : '\n' ∉ BOILER := by
      intro hm
      have h := BOILER_term_free '\n' hm
      rw [show isLineTerm '\n' = true from by decide] at h
      cases h
    have h2 := occurs_collapseNewlines _ BOILER_ne_nil hboilnl _ h1
    exact removeBoilerplate_no_boiler _ h2

/-- Helper: no triple newline survives the stripper. -/
theorem strip_no_triple (x : List Char) :
    ¬ Occurs ['\n', '\n', '\n'] (stripSystemTags x) := by
  by_cases hx : x = []
  · subst hx
    exact occurs_nil_false _ (by decide)
  · simp only [stripSystemTags]
    rw [if_neg hx]
    intro hocc
    exact no_triple_collapseNewlines _ (occurs_trimStr _ _ hocc)

/-- Helper: the stripper's output is already trimmed. -/
theorem strip_trim_fixed (x : List Char) :
    trimStr (stripSystemTags x) = stripSystemTags x := by
  by_cases hx : x = []
  · subst hx; rfl
  · simp only [stripSystemTags]
    rw [if_neg hx]
    exact trimStr_idem _

/-- C10: `stripSystemTags` is idempotent and preserves clean text: it
fixes its own output and the empty string, and on a string free of every
system-tag opening delimiter (closed or truncated) and of the
boilerplate literal it only collapses runs of three or more newlines to
two and trims surrounding whitespace. -/
theorem stripSystemTags_spec :
    (∀ s : List Char,
      stripSystemTags (stripSystemTags s) = stripSystemTags s) ∧
    stripSystemTags [] = [] ∧
    (∀ s : List Char,
      (∀ t ∈ SYSTEM_TAGS, containsPat (openTag t) s = false) →
      containsPat BOILER s = false →
      stripSystemTags s = trimStr (collapseNewlines s)) := by
  refine ⟨?_, rfl, ?_⟩
  · intro s
    by_cases hy : stripSystemTags s = []
    · rw [hy]; rfl
    · have htag := strip_tag_free s
      have hboil := strip_no_boiler s
      have htrip := strip_no_triple s
      set y := stripSystemTags s with hdef
      have hunfold : stripSystemTags y =
          trimStr (collapseNewlines (removeBoilerplate
            (SYSTEM_TAGS.foldl (fun acc t => removeUnclosedTag t acc)
              (SYSTEM_TAGS.foldl (fun acc t => removeClosedTag t acc)
                y)))) := by
        simp only [stripSystemTags]
        rw [if_neg hy]
      rw [hunfold, foldClosed_id _ _ htag, foldUnclosed_id _ _ htag,
        removeBoilerplate_id _ hboil, collapseNewlines_id _ htrip]
      exact strip_trim_fixed s
  · intro s h1 h2
    by_cases hx : s = []
    · subst hx; rfl
    · have h1' : ∀ t ∈ SYSTEM_TAGS, ¬ Occurs (openTag t) s := fun t ht =>
        (containsPat_false_iff _ (openTag_ne_nil t) s).mp (h1 t ht)
      have h2' := (containsPat_false_iff BOILER BOILER_ne_nil s).mp h2
      simp only [stripSystemTags]
      rw [if_neg hx]
      rw [foldClosed_id _ _ h1', foldUnclosed_id _ _ h1',
        removeBoilerplate_id _ h2']

/-- Witness for C10: a concrete clean prompt, with the clean-text
hypotheses discharged by evaluation. -/
theorem stripSystemTags_spec_witness :
    (∀ t ∈ SYSTEM_TAGS,
      containsPat (openTag t) (("Help me fix the login bug").toList) =
        false) ∧
      stripSystemTags (("Help me fix the login bug").toList) =
        trimStr (collapseNewlines (("Help me fix the login bug").toList))
    :=
  ⟨by decide,
    stripSystemTags_spec.2.2 (("Help me fix the login bug").toList)
      (by decide) (by decide)⟩

end CCUI
